import Mathlib

/-!
# LineScript compiler core: a shallow embedding of `src/lsc.cpp`

This file embeds the parts of the LineScript compiler (single C++ source
`src/lsc.cpp`) that the specification's claims are about:

* the checked 64-bit arithmetic helpers and closed-form loop fold helpers of
  the optimizer (`checkedI128ToI64`, `arithmeticSeriesSumI64`,
  `modLinearSeriesSumI64`, `tripCount`, ...);
* the statement / expression IR together with an executable big-step
  interpreter for the integer fragment, serving as ground truth for
  "what the original program computes" (the C emitter lowers this fragment
  directly: i64 arithmetic is two's-complement `int64_t` arithmetic, `for`
  loops become `for (i = start; i < stop; i += step)` for positive step and
  the mirrored form for negative step, and nothing runs for step `0`);
* the optimizer passes `pruneDeadLocalStores` and the `SK::For` case of
  `optBlock` (trip-count deletion and the closed-form strength-reduction
  patterns);
* the type checker's scoping / owned-handle / overload-resolution logic;
* the lexer's string-literal reader;
* the C emitter's entry-point selection and entry-wrapper return rule;
* the typed-IR bundle's FNV-1a-64 configuration hash.

Modelling conventions:

* `int64_t` values are `Int`. The compiler's `__int128` intermediates are
  modelled as exact `Int` arithmetic (the source only range-checks against
  the i64 bounds, via `checkedI128ToI64`).
* C truncating division/remainder are `Int.tdiv` / `Int.tmod` (never Lean's
  `/` and `%`, which are Euclidean on `Int`).
* run-time i64 arithmetic in the interpreter wraps two's-complement style
  (`wrap64`), matching what the emitted `int64_t` code computes.
* fallible C++ code returning `std::optional` becomes `Option`;
  `throw CompileError` becomes `Except String`.
-/

namespace LS

/-! ## Checked 64-bit arithmetic (optimizer helpers from `lsc.cpp`) -/

def i64Min : Int := -(2 ^ 63)

def i64Max : Int := 2 ^ 63 - 1

/-- `checkedI128ToI64`: clamp-check an exact integer against the i64 range. -/
def checkedI128ToI64 (v : Int) : Option Int :=
  if v < i64Min then none else if v > i64Max then none else some v

def checkedAddI64 (a b : Int) : Option Int := checkedI128ToI64 (a + b)

def checkedMulI64 (a b : Int) : Option Int := checkedI128ToI64 (a * b)

/-- `gcdSmallI64`: Euclid on the absolute values.  (The C++ version computes
on `uint64_t` and casts back; at every call site in the source the result is
bounded by a small divisor or by a positive modulus, so the cast never
wraps and `Int.gcd` is the exact semantics.) -/
def gcdSmallI64 (a b : Int) : Int := (Int.gcd a b : Int)

/-- `reduceDivisor`: divide a common factor of `x` and `den` out of both
(the C++ version mutates both references). -/
def reduceDivisor (x den : Int) : Int × Int :=
  if den ≤ 1 then (x, den)
  else
    let g := gcdSmallI64 x den
    if g > 1 then (x.tdiv g, den.tdiv g) else (x, den)

/-- `mul2Div2ExactI64`: `a * b / 2` when the division is exact after factor
reduction, range-checked. -/
def mul2Div2ExactI64 (a b : Int) : Option Int :=
  let p1 := reduceDivisor a 2
  let p2 := reduceDivisor b p1.2
  if p2.2 ≠ 1 then none else checkedMulI64 p1.1 p2.1

/-- `mul3Div6ExactI64`: `a * b * c / 6` when exact, range-checked. -/
def mul3Div6ExactI64 (a b c : Int) : Option Int :=
  let p1 := reduceDivisor a 6
  let p2 := reduceDivisor b p1.2
  let p3 := reduceDivisor c p2.2
  if p3.2 ≠ 1 then none
  else do
    let xy ← checkedMulI64 p1.1 p2.1
    checkedMulI64 xy p3.1

/-- `arithmeticSeriesSumI64 count start step = Σ_{k<count} (start + k*step)`
via the closed form `count * (2*start + (count-1)*step) / 2`, overflow
checked at every step. -/
def arithmeticSeriesSumI64 (count start step : Int) : Option Int :=
  if count ≤ 0 then some 0
  else do
    let nMinus1 ← checkedAddI64 count (-1)
    let span ← checkedMulI64 nMinus1 step
    let twoStart ← checkedMulI64 2 start
    let term ← checkedAddI64 twoStart span
    mul2Div2ExactI64 count term

/-- `modPosI64Const`: nonnegative residue of `x` modulo `m > 0`
(C `%` then conditional `+ m`). -/
def modPosI64Const (x m : Int) : Option Int :=
  if m ≤ 0 then none
  else
    let r := x.tmod m
    some (if r < 0 then r + m else r)

/-- The cycle-accumulation loop inside `modLinearSeriesSumI64`: starting at
residue `cur`, step `k` times by `d` modulo `m`, summing the residues
visited. -/
def modSeriesLoop (d m : Int) : Nat → Int → Int
  | 0, _ => 0
  | k + 1, cur =>
    cur + modSeriesLoop d m k (let c := cur + d; if c ≥ m then c - m else c)

/-- `modLinearSeriesSumI64 iters start step a b m`:
the optimizer's fold for `acc += (a*i + b) mod m` over
`i = start, start+step, …` (`iters` iterations), summing nonnegative
residues period-wise. -/
def modLinearSeriesSumI64 (iters start step a b m : Int) : Option Int :=
  if iters ≤ 0 ∨ m ≤ 0 then some 0
  else do
    let aStart ← checkedMulI64 a start
    let xRaw ← checkedAddI64 aStart b
    let dRaw ← checkedMulI64 a step
    let x0 ← modPosI64Const xRaw m
    let d ← modPosI64Const dRaw m
    if d = 0 then checkedI128ToI64 (x0 * iters)
    else
      let g := gcdSmallI64 d m
      if g ≤ 0 then none
      else
        let period := m.tdiv g
        if period ≤ 0 then none
        else if period > 8192 then none
        else
          let full := iters.tdiv period
          let rem := iters - full * period
          let cycle := modSeriesLoop d m period.toNat x0
          let tail := modSeriesLoop d m rem.toNat x0
          checkedI128ToI64 (full * cycle + tail)

/-- Two's-complement wrap-around of `int64_t` arithmetic. -/
def wrap64 (v : Int) : Int := (v + 2 ^ 63) % 2 ^ 64 - 2 ^ 63

/-- `tripCount`: number of iterations of `for i in start..stop step step`.
The source computes `(stop - start + step - 1) / step` (mirrored for a
negative step) entirely in `int64_t`, so every intermediate sum wraps; the
final `/` is C truncating division and cannot overflow because the divisor
is never `-1`. -/
def tripCount (start stop step : Int) : Option Int :=
  if step = 0 then none
  else if step > 0 then
    if start ≥ stop then some 0
    else some ((wrap64 (wrap64 (wrap64 (stop - start) + step) - 1)).tdiv step)
  else if start ≤ stop then some 0
  else
    let negStep := wrap64 (-step)
    some ((wrap64 (wrap64 (wrap64 (start - stop) + negStep) - 1)).tdiv negStep)

/-! ## Primitive types and conversion relations (`enum class Type`) -/

/-- The primitive types (`Type` in the source; renamed to avoid the Lean
keyword). -/
inductive Ty where
  | i32
  | i64
  | f32
  | f64
  | bool
  | str
  | void
deriving DecidableEq, Repr

def isIntTy : Ty → Bool
  | .i32 => true
  | .i64 => true
  | _ => false

def isFloatTy : Ty → Bool
  | .f32 => true
  | .f64 => true
  | _ => false

def isNumTy (t : Ty) : Bool := isIntTy t || isFloatTy t

/-- `TypeCheck::can`: assignability. -/
def can (a b : Ty) : Bool := a = b || (isNumTy a && isNumTy b)

/-- `TypeCheck::canSafeWiden`. -/
def canSafeWiden (a b : Ty) : Bool :=
  a = b ||
    (a = .i32 && (b = .i64 || b = .f32 || b = .f64)) ||
    (a = .i64 && b = .f64) ||
    (a = .f32 && b = .f64)

/-- `TypeCheck::conversionCost`: 0 exact, 1 safe widening, −1 otherwise. -/
def conversionCost (a b : Ty) : Int :=
  if a = b then 0 else if canSafeWiden a b then 1 else -1

/-- `TypeCheck::promote`: arithmetic result type. -/
def promote (a b : Ty) : Ty :=
  if isFloatTy a || isFloatTy b then
    if a = .f64 || b = .f64 then .f64 else .f32
  else if a = .i64 || b = .i64 then .i64
  else .i32

def isPrintable : Ty → Bool
  | .void => false
  | _ => true

/-! ## Overload resolution (`TypeCheck::resolveOverload`) -/

structure Sig where
  p : List Ty
  r : Ty
  throws : List String := []
deriving DecidableEq, Repr

structure OverloadCandidate where
  symbol : String
  sig : Sig
deriving DecidableEq, Repr

/-- Total conversion cost of one candidate against the argument types, or
`none` when the arity differs or some argument is not convertible (the inner
loop of `resolveOverload`). -/
def candidateCost (argTypes : List Ty) (cand : OverloadCandidate) : Option Int :=
  if cand.sig.p.length ≠ argTypes.length then none
  else go argTypes cand.sig.p 0
where
  go : List Ty → List Ty → Int → Option Int
    | [], [], acc => some acc
    | a :: as_, p :: ps, acc =>
      let c := conversionCost a p
      if c < 0 then none else go as_ ps (acc + c)
    | _, _, _ => none

/-- The scan state of `resolveOverload`: best cost so far (initially
`INT_MAX`), best candidate, and whether the best cost was seen twice. -/
structure ResolveState where
  bestCost : Int
  best : Option OverloadCandidate
  ambiguous : Bool

def resolveScan (argTypes : List Ty) : List OverloadCandidate → ResolveState → ResolveState
  | [], st => st
  | cand :: rest, st =>
    match candidateCost argTypes cand with
    | none => resolveScan argTypes rest st
    | some cost =>
      if cost < st.bestCost then
        resolveScan argTypes rest ⟨cost, some cand, false⟩
      else if cost = st.bestCost then
        resolveScan argTypes rest { st with ambiguous := true }
      else resolveScan argTypes rest st

/-- Outcome of `TypeCheck::resolveOverload` on a non-empty overload group. -/
inductive ResolveOutcome where
  | noCandidate
  | resolved (c : OverloadCandidate)
  | resolvedWithWarning (c : OverloadCandidate)
  | errAmbiguous (msg : String)
deriving DecidableEq, Repr

/-- `TypeCheck::resolveOverload` for group `name` with candidate list
`cands` (superuser mode `su`): scan for the minimum-cost admissible
candidate; a tie at the minimum is ambiguous. -/
def resolveOverload (su : Bool) (name : String) (cands : List OverloadCandidate)
    (argTypes : List Ty) : ResolveOutcome :=
  let st := resolveScan argTypes cands ⟨2 ^ 31 - 1, none, false⟩
  match st.best with
  | none => .noCandidate
  | some c =>
    if st.ambiguous then
      if su then .resolvedWithWarning c
      else .errAmbiguous ("ambiguous overload for function '" ++ name ++ "'")
    else .resolved c

end LS

namespace LS

/-! ## Expression and statement IR (`EK` / `SK` variants)

Source spans, the post-check `typed`/`inf` annotations and float literals
are not modelled (no claim depends on them); the `overrideFn` slot on unary
and binary nodes is kept because the optimizer's pattern matchers guard on
it. Nested `List` fields are explicit mutual inductives so that every
function below is structurally recursive and kernel-reducible. -/

inductive UK where
  | neg
  | not
deriving DecidableEq, Repr

inductive BK where
  | add | sub | mul | div | mod | pow
  | eq | neq | lt | lte | gt | gte
  | and | or
deriving DecidableEq, Repr

mutual
inductive Expr where
  | intLit (v : Int)
  | boolLit (b : Bool)
  | strLit (s : String)
  | var (n : String)
  | unary (op : UK) (x : Expr) (overrideFn : String)
  | binary (op : BK) (l r : Expr) (overrideFn : String)
  | call (f : String) (a : ExprList)

inductive ExprList where
  | nil
  | cons (e : Expr) (r : ExprList)
end

deriving instance DecidableEq for Expr
deriving instance DecidableEq for ExprList

mutual
inductive Stmt where
  | letS (n : String) (decl : Option Ty) (isConst isOwned : Bool) (v : Expr)
  | assign (n : String) (v : Expr)
  | exprS (e : Expr)
  | retS (has : Bool) (v : Option Expr)
  | ifS (c : Expr) (t e : Block)
  | whileS (c : Expr) (b : Block)
  | forS (n : String) (start stop step : Expr) (parallel : Bool) (b : Block)
  | formatBlock (endArg : Option Expr) (b : Block)
  | breakS
  | continueS

inductive Block where
  | nil
  | cons (s : Stmt) (r : Block)
end

deriving instance DecidableEq for Stmt
deriving instance DecidableEq for Block

def Block.toList : Block → List Stmt
  | .nil => []
  | .cons s r => s :: Block.toList r

def Block.ofList : List Stmt → Block
  | [] => .nil
  | s :: r => .cons s (Block.ofList r)

def Block.length : Block → Nat
  | .nil => 0
  | .cons _ r => 1 + Block.length r

def ExprList.toList : ExprList → List Expr
  | .nil => []
  | .cons e r => e :: ExprList.toList r

/-! ## Big-step interpreter for the integer fragment

Ground truth for "what the program computes": the C emitter maps this
fragment 1:1 onto `int64_t` C code, so i64 arithmetic wraps two's-complement
style, `/` and `%` truncate toward zero (zero divisor: the behaviour is not
modelled, the interpreter fails), and a `for` loop runs
`for (i = start; i < stop; i += step)` for positive step, the mirrored form
for negative step, and not at all for step `0`.  Statement-level
`println(e)` appends the value of `e` to the output trace; other calls are
outside the modelled fragment and fail. -/

inductive Value where
  | vInt (v : Int)
  | vBool (b : Bool)
  | vStr (s : String)
deriving DecidableEq, Repr

abbrev Env := List (String × Value)

def envLookup (env : Env) (n : String) : Option Value :=
  match env with
  | [] => none
  | (m, v) :: r => if m = n then some v else envLookup r n

def envSet (env : Env) (n : String) (v : Value) : Env :=
  match env with
  | [] => []
  | (m, w) :: r => if m = n then (m, v) :: r else (m, w) :: envSet r n v

def evalBin (op : BK) (a b : Value) : Option Value :=
  match op, a, b with
  | .add, .vInt x, .vInt y => some (.vInt (wrap64 (x + y)))
  | .sub, .vInt x, .vInt y => some (.vInt (wrap64 (x - y)))
  | .mul, .vInt x, .vInt y => some (.vInt (wrap64 (x * y)))
  | .div, .vInt x, .vInt y => if y = 0 then none else some (.vInt (wrap64 (x.tdiv y)))
  | .mod, .vInt x, .vInt y => if y = 0 then none else some (.vInt (wrap64 (x.tmod y)))
  | .eq, .vInt x, .vInt y => some (.vBool (x = y))
  | .neq, .vInt x, .vInt y => some (.vBool (x ≠ y))
  | .lt, .vInt x, .vInt y => some (.vBool (x < y))
  | .lte, .vInt x, .vInt y => some (.vBool (x ≤ y))
  | .gt, .vInt x, .vInt y => some (.vBool (x > y))
  | .gte, .vInt x, .vInt y => some (.vBool (x ≥ y))
  | .eq, .vBool x, .vBool y => some (.vBool (x = y))
  | .neq, .vBool x, .vBool y => some (.vBool (x ≠ y))
  | .and, .vBool x, .vBool y => some (.vBool (x && y))
  | .or, .vBool x, .vBool y => some (.vBool (x || y))
  | _, _, _ => none

def evalExpr (env : Env) : Expr → Option Value
  | .intLit v => some (.vInt v)
  | .boolLit b => some (.vBool b)
  | .strLit s => some (.vStr s)
  | .var n => envLookup env n
  | .unary .neg x _ => do
    match ← evalExpr env x with
    | .vInt v => some (.vInt (wrap64 (-v)))
    | _ => none
  | .unary .not x _ => do
    match ← evalExpr env x with
    | .vBool b => some (.vBool (!b))
    | _ => none
  | .binary op l r _ => do evalBin op (← evalExpr env l) (← evalExpr env r)
  | .call _ _ => none

/-- Control-flow result of executing a statement. -/
inductive Flow where
  | norm
  | brk
  | cont
  | ret (v : Option Value)
deriving DecidableEq, Repr

/-- On leaving a C block scope, the declarations made inside it disappear;
updates to enclosing variables persist.  `Env` grows only at the front, so
dropping down to the original length restores the scope. -/
def scopeDrop (orig after : Env) : Env := after.drop (after.length - orig.length)

mutual

def execStmt : Nat → Env → Stmt → Option (Env × List Value × Flow)
  | 0, _, _ => none
  | _ + 1, env, .letS n _ _ _ v => do
    let val ← evalExpr env v
    some ((n, val) :: env, [], .norm)
  | _ + 1, env, .assign n v => do
    let val ← evalExpr env v
    if (envLookup env n).isSome then some (envSet env n val, [], .norm) else none
  | _ + 1, env, .exprS e =>
    match e with
    | .call "println" (.cons arg .nil) => do
      let v ← evalExpr env arg
      some (env, [v], .norm)
    | _ => do
      let _ ← evalExpr env e
      some (env, [], .norm)
  | _ + 1, env, .retS _ none => some (env, [], .ret none)
  | _ + 1, env, .retS _ (some v) => do
    let val ← evalExpr env v
    some (env, [], .ret (some val))
  | fuel + 1, env, .ifS c t e => do
    match ← evalExpr env c with
    | .vBool b => do
      let (env', out, fl) ← execBlock fuel env (if b then t else e)
      some (scopeDrop env env', out, fl)
    | _ => none
  | fuel + 1, env, .whileS c b => do
    match ← evalExpr env c with
    | .vBool cv =>
      if cv then do
        let (env', out, fl) ← execBlock fuel env b
        let env2 := scopeDrop env env'
        match fl with
        | .brk => some (env2, out, .norm)
        | .ret v => some (env2, out, .ret v)
        | _ => do
          let (env3, out2, fl2) ← execStmt fuel env2 (.whileS c b)
          some (env3, out ++ out2, fl2)
      else some (env, [], .norm)
    | _ => none
  | fuel + 1, env, .forS n start stop step _ b => do
    match ← evalExpr env start, ← evalExpr env stop, ← evalExpr env step with
    | .vInt i0, .vInt sv, .vInt st => execForLoop fuel env n i0 sv st b
    | _, _, _ => none
  | fuel + 1, env, .formatBlock _ b => do
    let (env', out, fl) ← execBlock fuel env b
    some (scopeDrop env env', out, fl)
  | _ + 1, env, .breakS => some (env, [], .brk)
  | _ + 1, env, .continueS => some (env, [], .cont)

def execBlock : Nat → Env → Block → Option (Env × List Value × Flow)
  | 0, _, _ => none
  | _ + 1, env, .nil => some (env, [], .norm)
  | fuel + 1, env, .cons s r => do
    let (env1, out1, fl1) ← execStmt fuel env s
    match fl1 with
    | .norm => do
      let (env2, out2, fl2) ← execBlock fuel env1 r
      some (env2, out1 ++ out2, fl2)
    | fl => some (env1, out1, fl)

def execForLoop : Nat → Env → String → Int → Int → Int → Block → Option (Env × List Value × Flow)
  | 0, _, _, _, _, _, _ => none
  | fuel + 1, env, n, i, stop, step, b =>
    if (step > 0 && i < stop) || (step < 0 && i > stop) then do
      let envI : Env := (n, .vInt i) :: env
      let (env', out, fl) ← execBlock fuel envI b
      match scopeDrop envI env' with
      | (_, .vInt cur) :: restEnv =>
        match fl with
        | .brk => some (restEnv, out, .norm)
        | .ret v => some (restEnv, out, .ret v)
        | _ => do
          let (env2, out2, fl2) ← execForLoop fuel restEnv n (wrap64 (cur + step)) stop step b
          some (env2, out ++ out2, fl2)
      | _ => none
    else some (env, [], .norm)

end

end LS

namespace LS

/-! ## Optimizer: expression analysis helpers

`negOv` is the source's global `gOptHasUnaryNegOverride` flag, passed
explicitly. -/

def litI : Expr → Option Int
  | .intLit v => some v
  | _ => none

def litB : Expr → Option Bool
  | .boolLit b => some b
  | _ => none

mutual
def exprHasVarName : Expr → String → Bool
  | .var n, name => n = name
  | .unary _ x _, name => exprHasVarName x name
  | .binary _ l r _, name => exprHasVarName l name || exprHasVarName r name
  | .call _ a, name => exprListHasVarName a name
  | _, _ => false

def exprListHasVarName : ExprList → String → Bool
  | .nil, _ => false
  | .cons e r, name => exprHasVarName e name || exprListHasVarName r name
end

/-- `evalConstI64Expr`: evaluate a constant i64 expression
(add/sub/mul and unary negation only), overflow-checked. -/
def evalConstI64Expr (negOv : Bool) : Expr → Option Int
  | .intLit v => some v
  | .unary op x ov =>
    if ov ≠ "" then none
    else if op = .neg && negOv then none
    else if op ≠ .neg then none
    else do
      let v ← evalConstI64Expr negOv x
      checkedI128ToI64 (-v)
  | .binary op l r ov =>
    if ov ≠ "" then none
    else do
      let lv ← evalConstI64Expr negOv l
      let rv ← evalConstI64Expr negOv r
      match op with
      | .add => checkedI128ToI64 (lv + rv)
      | .sub => checkedI128ToI64 (lv - rv)
      | .mul => checkedI128ToI64 (lv * rv)
      | _ => none
  | _ => none

structure AffineI64Const where
  a : Int
  b : Int
deriving DecidableEq, Repr

/-- `affineI64ConstExpr`: recognize `a * loopVar + b` with constant
`a`, `b`. -/
def affineI64ConstExpr (negOv : Bool) (loopVar : String) : Expr → Option AffineI64Const
  | .intLit v => some ⟨0, v⟩
  | .var n => if n = loopVar then some ⟨1, 0⟩ else none
  | .unary op x ov =>
    if ov ≠ "" then none
    else if op = .neg && negOv then none
    else if op ≠ .neg then none
    else do
      let i ← affineI64ConstExpr negOv loopVar x
      let a ← checkedI128ToI64 (-i.a)
      let b ← checkedI128ToI64 (-i.b)
      some ⟨a, b⟩
  | .binary op l r ov =>
    if ov ≠ "" then none
    else if op = .add || op = .sub then do
      let lc ← affineI64ConstExpr negOv loopVar l
      let rc ← affineI64ConstExpr negOv loopVar r
      let sign : Int := if op = .add then 1 else -1
      let a ← checkedI128ToI64 (lc.a + sign * rc.a)
      let b ← checkedI128ToI64 (lc.b + sign * rc.b)
      some ⟨a, b⟩
    else if op = .mul then
      match evalConstI64Expr negOv l with
      | some lv => do
        let rc ← affineI64ConstExpr negOv loopVar r
        let a ← checkedI128ToI64 (lv * rc.a)
        let b ← checkedI128ToI64 (lv * rc.b)
        some ⟨a, b⟩
      | none =>
        match evalConstI64Expr negOv r with
        | some rv => do
          let lc ← affineI64ConstExpr negOv loopVar l
          let a ← checkedI128ToI64 (rv * lc.a)
          let b ← checkedI128ToI64 (rv * lc.b)
          some ⟨a, b⟩
        | none => none
    else none
  | _ => none

structure Linear2I64Const where
  ax : Int
  ay : Int
  c : Int
deriving DecidableEq, Repr

/-- `linear2I64ConstExpr`: recognize `ax * xVar + ay * yVar + c`. -/
def linear2I64ConstExpr (negOv : Bool) (xVar yVar : String) : Expr → Option Linear2I64Const
  | .intLit v => some ⟨0, 0, v⟩
  | .var n =>
    if n = xVar then some ⟨1, 0, 0⟩
    else if n = yVar then some ⟨0, 1, 0⟩
    else none
  | .unary op x ov =>
    if ov ≠ "" then none
    else if op = .neg && negOv then none
    else if op ≠ .neg then none
    else do
      let i ← linear2I64ConstExpr negOv xVar yVar x
      let ax ← checkedI128ToI64 (-i.ax)
      let ay ← checkedI128ToI64 (-i.ay)
      let c ← checkedI128ToI64 (-i.c)
      some ⟨ax, ay, c⟩
  | .binary op l r ov =>
    if ov ≠ "" then none
    else if op = .add || op = .sub then do
      let lc ← linear2I64ConstExpr negOv xVar yVar l
      let rc ← linear2I64ConstExpr negOv xVar yVar r
      let sign : Int := if op = .add then 1 else -1
      let ax ← checkedI128ToI64 (lc.ax + sign * rc.ax)
      let ay ← checkedI128ToI64 (lc.ay + sign * rc.ay)
      let c ← checkedI128ToI64 (lc.c + sign * rc.c)
      some ⟨ax, ay, c⟩
    else if op = .mul then
      match evalConstI64Expr negOv l with
      | some lv => do
        let rc ← linear2I64ConstExpr negOv xVar yVar r
        let ax ← checkedI128ToI64 (lv * rc.ax)
        let ay ← checkedI128ToI64 (lv * rc.ay)
        let c ← checkedI128ToI64 (lv * rc.c)
        some ⟨ax, ay, c⟩
      | none =>
        match evalConstI64Expr negOv r with
        | some rv => do
          let lc ← linear2I64ConstExpr negOv xVar yVar l
          let ax ← checkedI128ToI64 (rv * lc.ax)
          let ay ← checkedI128ToI64 (rv * lc.ay)
          let c ← checkedI128ToI64 (rv * lc.c)
          some ⟨ax, ay, c⟩
        | none => none
    else none
  | _ => none

structure Poly2I64Const where
  c2 : Int
  c1 : Int
  c0 : Int
deriving DecidableEq, Repr

def poly2Degree (p : Poly2I64Const) : Nat :=
  if p.c2 ≠ 0 then 2 else if p.c1 ≠ 0 then 1 else 0

def poly2Add (a b : Poly2I64Const) (sign : Int) : Option Poly2I64Const := do
  let c2 ← checkedI128ToI64 (a.c2 + sign * b.c2)
  let c1 ← checkedI128ToI64 (a.c1 + sign * b.c1)
  let c0 ← checkedI128ToI64 (a.c0 + sign * b.c0)
  some ⟨c2, c1, c0⟩

def poly2Mul (a b : Poly2I64Const) : Option Poly2I64Const :=
  let c4 := a.c2 * b.c2
  let c3 := a.c2 * b.c1 + a.c1 * b.c2
  if c4 ≠ 0 ∨ c3 ≠ 0 then none
  else do
    let c2 ← checkedI128ToI64 (a.c2 * b.c0 + a.c1 * b.c1 + a.c0 * b.c2)
    let c1 ← checkedI128ToI64 (a.c1 * b.c0 + a.c0 * b.c1)
    let c0 ← checkedI128ToI64 (a.c0 * b.c0)
    some ⟨c2, c1, c0⟩

/-- `poly2ConstI64Expr`: recognize a polynomial of degree ≤ 2 in the loop
variable. -/
def poly2ConstI64Expr (negOv : Bool) (loopVar : String) : Expr → Option Poly2I64Const
  | .intLit v => some ⟨0, 0, v⟩
  | .var n => if n = loopVar then some ⟨0, 1, 0⟩ else none
  | .unary op x ov =>
    if ov ≠ "" then none
    else if op = .neg && negOv then none
    else if op ≠ .neg then none
    else do
      let i ← poly2ConstI64Expr negOv loopVar x
      let c2 ← checkedI128ToI64 (-i.c2)
      let c1 ← checkedI128ToI64 (-i.c1)
      let c0 ← checkedI128ToI64 (-i.c0)
      some ⟨c2, c1, c0⟩
  | .binary op l r _ =>
    if op = .add || op = .sub then do
      let lc ← poly2ConstI64Expr negOv loopVar l
      let rc ← poly2ConstI64Expr negOv loopVar r
      poly2Add lc rc (if op = .add then 1 else -1)
    else if op = .mul then do
      let lc ← poly2ConstI64Expr negOv loopVar l
      let rc ← poly2ConstI64Expr negOv loopVar r
      if poly2Degree lc + poly2Degree rc > 2 then none
      else poly2Mul lc rc
    else none
  | _ => none

/-! ## Optimizer: statement predicates and substitution -/

mutual
def stmtHasDeclNamed : Stmt → String → Bool
  | .letS n _ _ _ _, name => n = name
  | .ifS _ t e, name => blockHasDeclNamed t name || blockHasDeclNamed e name
  | .whileS _ b, name => blockHasDeclNamed b name
  | .forS n _ _ _ _ b, name => n = name || blockHasDeclNamed b name
  | .formatBlock _ b, name => blockHasDeclNamed b name
  | _, _ => false

def blockHasDeclNamed : Block → String → Bool
  | .nil, _ => false
  | .cons s r, name => stmtHasDeclNamed s name || blockHasDeclNamed r name
end

mutual
def stmtAssignsNamed : Stmt → String → Bool
  | .assign n _, name => n = name
  | .ifS _ t e, name => blockAssignsNamed t name || blockAssignsNamed e name
  | .whileS _ b, name => blockAssignsNamed b name
  | .forS n _ _ _ _ b, name => n = name || blockAssignsNamed b name
  | .formatBlock _ b, name => blockAssignsNamed b name
  | _, _ => false

def blockAssignsNamed : Block → String → Bool
  | .nil, _ => false
  | .cons s r, name => stmtAssignsNamed s name || blockAssignsNamed r name
end

mutual
def stmtIsLoopControl : Stmt → Bool
  | .breakS => true
  | .continueS => true
  | .ifS _ t e => blockHasLoopControl t || blockHasLoopControl e
  | .whileS _ b => blockHasLoopControl b
  | .forS _ _ _ _ _ b => blockHasLoopControl b
  | .formatBlock _ b => blockHasLoopControl b
  | _ => false

def blockHasLoopControl : Block → Bool
  | .nil => false
  | .cons s r => stmtIsLoopControl s || blockHasLoopControl r
end

mutual
def substVarE (name : String) (value : Int) : Expr → Expr
  | .var n => if n = name then .intLit value else .var n
  | .unary op x ov => .unary op (substVarE name value x) ov
  | .binary op l r ov => .binary op (substVarE name value l) (substVarE name value r) ov
  | .call f a => .call f (substVarEL name value a)
  | e => e

def substVarEL (name : String) (value : Int) : ExprList → ExprList
  | .nil => .nil
  | .cons e r => .cons (substVarE name value e) (substVarEL name value r)
end

mutual
def substStmtVar (name : String) (value : Int) : Stmt → Stmt
  | .letS n d c o v => .letS n d c o (substVarE name value v)
  | .assign n v => .assign n (substVarE name value v)
  | .exprS e => .exprS (substVarE name value e)
  | .retS has v =>
    match has, v with
    | true, some e => .retS true (some (substVarE name value e))
    | _, _ => .retS false none
  | .ifS c t e => .ifS (substVarE name value c) (substBlockVar name value t) (substBlockVar name value e)
  | .whileS c b => .whileS (substVarE name value c) (substBlockVar name value b)
  | .forS n st en sp par b =>
    .forS n (substVarE name value st) (substVarE name value en) (substVarE name value sp) par
      (substBlockVar name value b)
  | .formatBlock ea b => .formatBlock (ea.map (substVarE name value)) (substBlockVar name value b)
  | .breakS => .breakS
  | .continueS => .continueS

def substBlockVar (name : String) (value : Int) : Block → Block
  | .nil => .nil
  | .cons s r => .cons (substStmtVar name value s) (substBlockVar name value r)
end

end LS

namespace LS

/-! ## Dead-store elimination (`pruneDeadLocalStores`) -/

/-- `exprTrivialNoSideEffects`: literals, variables, unary nodes and
call-free binary nodes without division/modulo/power (and without operator
overrides). -/
def exprTrivialNoSideEffects : Expr → Bool
  | .intLit _ => true
  | .boolLit _ => true
  | .strLit _ => true
  | .var _ => true
  | .unary _ x _ => exprTrivialNoSideEffects x
  | .binary op l r ov =>
    if ov ≠ "" then false
    else if op = .div || op = .mod || op = .pow then false
    else exprTrivialNoSideEffects l && exprTrivialNoSideEffects r
  | .call _ _ => false

mutual
def stmtReadsNamed : Stmt → String → Bool
  | .letS _ _ _ _ v, name => exprHasVarName v name
  | .assign _ v, name => exprHasVarName v name
  | .exprS e, name => exprHasVarName e name
  | .retS has v, name =>
    match has, v with
    | true, some e => exprHasVarName e name
    | _, _ => false
  | .ifS c t e, name =>
    blockReadsNamed t name || blockReadsNamed e name || exprHasVarName c name
  | .whileS c b, name => exprHasVarName c name || blockReadsNamed b name
  | .forS _ st en sp _ b, name =>
    exprHasVarName st name || exprHasVarName en name || exprHasVarName sp name ||
      blockReadsNamed b name
  | .formatBlock ea b, name =>
    (match ea with
     | some e => exprHasVarName e name
     | none => false) || blockReadsNamed b name
  | .breakS, _ => false
  | .continueS, _ => false

def blockReadsNamed : Block → String → Bool
  | .nil, _ => false
  | .cons s r, name => stmtReadsNamed s name || blockReadsNamed r name
end

/-- `pruneDeadLocalStores`: within a block, drop `declare`/`assign`/`expr`
statements whose value is trivially pure and whose target is not read by any
later statement of the same block; recurse into if/else bodies.  (The
read-scan for a statement looks only at the not-yet-pruned tail of its own
block, exactly as the C++ index loop does.) -/
def pruneDeadLocalStores : Block → Block
  | .nil => .nil
  | .cons s r =>
    match s with
    | .letS n d c o v =>
      if exprTrivialNoSideEffects v && !blockReadsNamed r n then pruneDeadLocalStores r
      else .cons (.letS n d c o v) (pruneDeadLocalStores r)
    | .assign n v =>
      if exprTrivialNoSideEffects v && !blockReadsNamed r n then pruneDeadLocalStores r
      else .cons (.assign n v) (pruneDeadLocalStores r)
    | .exprS e =>
      if exprTrivialNoSideEffects e then pruneDeadLocalStores r
      else .cons (.exprS e) (pruneDeadLocalStores r)
    | .ifS c t e =>
      .cons (.ifS c (pruneDeadLocalStores t) (pruneDeadLocalStores e)) (pruneDeadLocalStores r)
    | other => .cons other (pruneDeadLocalStores r)

/-! ## The `SK::For` case of `optBlock`: trip-count deletion and
closed-form strength reduction -/

/-- The backward scan of `resolveLocalI64` for a variable reference:
`earlier` is the statements before the loop in reverse order, `later`
accumulates the statements already passed (those between the found
declaration and the loop), which must not reassign the name. -/
def resolveLocalScan (name : String) : List Stmt → List Stmt → Option Int
  | [], _ => none
  | s :: earlier, later =>
    match s with
    | .letS n _ _ _ v =>
      if n = name then
        match litI v with
        | none => none
        | some dv => if later.any (fun t => stmtAssignsNamed t name) then none else some dv
      else resolveLocalScan name earlier (s :: later)
    | .assign n _ =>
      if n = name then none else resolveLocalScan name earlier (s :: later)
    | _ => resolveLocalScan name earlier (s :: later)

/-- `resolveLocalI64`: an i64 literal, or a variable declared earlier in the
same block with a literal initializer and never reassigned in between. -/
def resolveLocalI64 (pre : List Stmt) (e : Expr) : Option Int :=
  match litI e with
  | some v => some v
  | none =>
    match e with
    | .var name => resolveLocalScan name pre.reverse []
    | _ => none

/-- `extractOther` (shared by the reduction matchers): for an assignment
`asName = asV`, require `asV = asName + other` (in either operand order) and
return `other`; with `required = some t`, `other` must be the variable `t`. -/
def extractOther (asName : String) (asV : Expr) (required : Option String) : Option Expr :=
  match asV with
  | .binary .add l r _ =>
    let leftSelf := l = Expr.var asName
    let rightSelf := r = Expr.var asName
    if !leftSelf && !rightSelf then none
    else
      let other := if leftSelf then r else l
      match required with
      | some rv => if other = Expr.var rv then some other else none
      | none => some other
  | _ => none

structure PlusRed where
  var : String
  other : Expr
deriving DecidableEq

/-- `parsePlusRed` of the pair-coupled matcher: `v = v + other` with `other`
not reading `v`. -/
def parsePlusRed (n : String) (v : Expr) : Option PlusRed :=
  match v with
  | .binary .add l r _ =>
    let leftSelf := l = Expr.var n
    let rightSelf := r = Expr.var n
    if !leftSelf && !rightSelf then none
    else
      let other := if leftSelf then r else l
      if exprHasVarName other n then none else some ⟨n, other⟩
  | _ => none

/-- Non-inlined `Option.bind` used for the optimizer's long checked
computation chains. -/
def obind {A B : Type} (o : Option A) (f : A → Option B) : Option B :=
  match o with
  | none => none
  | some x => f x

/-- The two replacement statements emitted by the pair-coupled fold:
`acc = acc + (state * N + gw); state = state + deltaY`. -/
def pairReps (accVar stateVar : String) (tc gw deltaY : Int) : List Stmt :=
  [Stmt.assign accVar
    (.binary .add (.var accVar)
      (.binary .add (.binary .mul (.var stateVar) (.intLit tc) "") (.intLit gw) "") ""),
   Stmt.assign stateVar (.binary .add (.var stateVar) (.intLit deltaY) "")]

/-- Replacement statement `v = v + delta` shared by the single-reduction
folds. -/
def selfAddConst (v : String) (delta : Int) : Stmt :=
  .assign v (.binary .add (.var v) (.intLit delta) "")

/-- The computation chain of `tryFoldPair` (pair-coupled reduction):
returns the replacement statements for `acc += state; state += a*i + b`. -/
def tryFoldPair (negOv : Bool) (loopVar : String) (tc st sp : Int)
    (acc state : PlusRed) : Option (List Stmt) :=
  if acc.other ≠ Expr.var state.var then none
  else if exprHasVarName state.other acc.var then none
  else if exprHasVarName state.other state.var then none
  else
    obind (affineI64ConstExpr negOv loopVar state.other) fun aff =>
    obind (arithmeticSeriesSumI64 tc st sp) fun sumI =>
    obind (checkedMulI64 aff.a sumI) fun dY1 =>
    obind (checkedMulI64 aff.b tc) fun dY2 =>
    obind (checkedAddI64 dY1 dY2) fun deltaY =>
    obind (checkedAddI64 tc (-1)) fun nMinus1 =>
    obind (checkedAddI64 tc (-2)) fun nMinus2 =>
    obind (mul2Div2ExactI64 tc nMinus1) fun k1 =>
    obind (mul3Div6ExactI64 tc nMinus1 nMinus2) fun k2 =>
    obind (checkedMulI64 aff.a st) fun aStart =>
    obind (checkedAddI64 aStart aff.b) fun c0 =>
    obind (checkedMulI64 aff.a sp) fun c1 =>
    obind (checkedMulI64 c0 k1) fun gw0 =>
    obind (checkedMulI64 c1 k2) fun gw1 =>
    obind (checkedAddI64 gw0 gw1) fun gw =>
    some (pairReps acc.var state.var tc gw deltaY)

/-- Pattern: pair-coupled reduction (body is exactly two assignments). -/
def tryPairCoupled (negOv : Bool) (loopVar : String) (tc st sp : Int)
    (body : Block) : Option (List Stmt) :=
  match body with
  | .cons (.assign n0 v0) (.cons (.assign n1 v1) .nil) =>
    match parsePlusRed n0 v0, parsePlusRed n1 v1 with
    | some r0, some r1 =>
      match tryFoldPair negOv loopVar tc st sp r0 r1 with
      | some reps => some reps
      | none => tryFoldPair negOv loopVar tc st sp r1 r0
    | _, _ => none
  | _ => none

/-- The one-assignment / declare-then-assignment body shape shared by the
single-reduction matchers: returns the assignment target and the effective
`other` expression. -/
def singleRedShape (loopVar : String) (body : Block) : Option (String × Expr) :=
  match body with
  | .cons (.assign n v) .nil => do
    let other ← extractOther n v none
    some (n, other)
  | .cons (.letS tn _ _ _ tv) (.cons (.assign n v) .nil) =>
    if tn ≠ loopVar && !exprHasVarName tv tn then do
      let _ ← extractOther n v (some tn)
      some (n, tv)
    else none
  | _ => none

/-- Pattern: modular-linear or single affine reduction. -/
def tryModOrAffine (negOv : Bool) (loopVar : String) (tc st sp : Int)
    (body : Block) : Option (List Stmt) := do
  let (asName, otherExpr) ← singleRedShape loopVar body
  if exprHasVarName otherExpr asName then none
  else
    let modDelta : Option Int :=
      match otherExpr with
      | .binary .mod ml mr _ =>
        match evalConstI64Expr negOv mr, affineI64ConstExpr negOv loopVar ml with
        | some m, some affMod =>
          if m > 0 then modLinearSeriesSumI64 tc st sp affMod.a affMod.b m else none
        | _, _ => none
      | _ => none
    let deltaI : Option Int :=
      match modDelta with
      | some d => some d
      | none =>
        match affineI64ConstExpr negOv loopVar otherExpr with
        | some aff =>
          let sumIdx := (tc * (2 * st + (tc - 1) * sp)).tdiv 2
          checkedI128ToI64 (aff.a * sumIdx + aff.b * tc)
        | none => none
    match deltaI with
    | some d => some [selfAddConst asName d]
    | none => none

/-- The computation chain of the bilinear fold. -/
def bilinearFold (lin : Linear2I64Const) (tc st sp itc ist isp : Int) : Option Int :=
  obind (arithmeticSeriesSumI64 tc st sp) fun sumI =>
  obind (arithmeticSeriesSumI64 itc ist isp) fun sumJ =>
  obind (checkedMulI64 lin.ax itc) fun axNj =>
  obind (checkedMulI64 axNj sumI) fun part1 =>
  obind (checkedMulI64 lin.ay tc) fun ayNi =>
  obind (checkedMulI64 ayNi sumJ) fun part2 =>
  obind (checkedMulI64 tc itc) fun niNj =>
  obind (checkedMulI64 lin.c niNj) fun part3 =>
  obind (checkedAddI64 part1 part2) fun p12 =>
  checkedAddI64 p12 part3

/-- Pattern: bilinear reduction over two nested constant-bounded loops
(the inner body has the same one-assignment / declare-then-assignment shape
as the single reductions, with the inner loop variable). -/
def tryBilinear (negOv : Bool) (loopVar : String) (tc st sp : Int)
    (body : Block) : Option (List Stmt) :=
  match body with
  | .cons (.forS inN inStart inStop inStep inPar inBody) .nil =>
    match litI inStart, litI inStop, litI inStep with
    | some ist, some ien, some isp =>
      match tripCount ist ien isp with
      | some itc =>
        if inPar || itc ≤ 0 then none
        else
          match singleRedShape inN inBody with
          | some (asName, otherExpr) =>
            if exprHasVarName otherExpr asName then none
            else
              match linear2I64ConstExpr negOv loopVar inN otherExpr with
              | some lin =>
                match bilinearFold lin tc st sp itc ist isp with
                | some delta => some [selfAddConst asName delta]
                | none => none
              | none => none
          | none => none
      | none => none
    | _, _, _ => none
  | _ => none

/-- Duplicate check of the multi-reduction matchers (the source inserts
into a set and fails on a duplicate target). -/
def listNodupStr : List String → Bool
  | [] => true
  | x :: r => !r.contains x && listNodupStr r

/-- Shared shape check of the multi-reduction matchers: every statement is a
self-add assignment whose `other` expression does not read its own target. -/
def multiRedTerms : List Stmt → Option (List (String × Expr))
  | [] => some []
  | .assign n v :: rest =>
    match extractOther n v none with
    | some other =>
      if exprHasVarName other n then none
      else (multiRedTerms rest).map (fun l => (n, other) :: l)
    | none => none
  | _ => none

/-- Cross checks of the multi-reduction matchers: distinct targets, and no
`other` expression reads a different assigned variable. -/
def multiRedOk (pairs : List (String × Expr)) : Bool :=
  let vars := pairs.map Prod.fst
  listNodupStr vars &&
    !pairs.any (fun p => vars.any fun v => v ≠ p.1 && exprHasVarName p.2 v)

/-- The Σi and Σi² computation chain of the degree-≤2 polynomial fold. -/
def polyFoldSums (tc st sp : Int) : Option (Int × Int) :=
  obind (checkedAddI64 tc (-1)) fun nMinus1 =>
  obind (checkedMulI64 2 tc) fun twoN =>
  obind (checkedAddI64 twoN (-1)) fun twoNMinus1 =>
  obind (mul2Div2ExactI64 tc nMinus1) fun sumK =>
  obind (mul3Div6ExactI64 tc nMinus1 twoNMinus1) fun sumK2 =>
  obind (checkedMulI64 tc st) fun nMulS =>
  obind (checkedMulI64 sp sumK) fun dMulSumK =>
  obind (checkedAddI64 nMulS dMulSumK) fun sumI =>
  obind (checkedMulI64 st st) fun sSq =>
  obind (checkedMulI64 sp sp) fun dSq =>
  obind (checkedMulI64 tc sSq) fun term1 =>
  obind (checkedMulI64 st sp) fun sMulD =>
  obind (checkedMulI64 2 sMulD) fun twoSMulD =>
  obind (checkedMulI64 twoSMulD sumK) fun term2 =>
  obind (checkedMulI64 dSq sumK2) fun term3 =>
  obind (checkedAddI64 term1 term2) fun sumI2a =>
  obind (checkedAddI64 sumI2a term3) fun sumI2 =>
  some (sumI, sumI2)

/-- Pattern: polynomial (degree ≤ 2) reductions, one to four assignments. -/
def tryPoly (negOv : Bool) (loopVar : String) (tc st sp : Int)
    (body : Block) : Option (List Stmt) :=
  let stmts := body.toList
  if stmts.length < 1 || stmts.length > 4 then none
  else
    match multiRedTerms stmts with
    | some pairs =>
      if !multiRedOk pairs then none
      else
        match pairs.mapM (fun p => (poly2ConstI64Expr negOv loopVar p.2).map fun q => (p.1, q)) with
        | some terms =>
          match polyFoldSums tc st sp with
          | some (sumI, sumI2) =>
            match
              terms.mapM fun t =>
                (checkedI128ToI64 (t.2.c2 * sumI2 + t.2.c1 * sumI + t.2.c0 * tc)).map
                  fun d => selfAddConst t.1 d
            with
            | some reps => some reps
            | none => none
          | none => none
        | none => none
    | none => none

/-- Pattern: independent affine reductions, two to four assignments. -/
def tryMultiAffine (negOv : Bool) (loopVar : String) (tc st sp : Int)
    (body : Block) : Option (List Stmt) :=
  let stmts := body.toList
  if stmts.length < 2 || stmts.length > 4 then none
  else
    match multiRedTerms stmts with
    | some pairs =>
      if !multiRedOk pairs then none
      else
        match pairs.mapM (fun p => (affineI64ConstExpr negOv loopVar p.2).map fun q => (p.1, q)) with
        | some terms =>
          let sumIdx := (tc * (2 * st + (tc - 1) * sp)).tdiv 2
          match
            terms.mapM fun t =>
              (checkedI128ToI64 (t.2.a * sumIdx + t.2.b * tc)).map fun d => selfAddConst t.1 d
          with
          | some reps => some reps
          | none => none
        | none => none
    | none => none

/-- The unrolled copies: iteration `k` substitutes `cur = start + k*step`
for the loop variable. -/
def unrollChunks (body : Block) (loopVar : String) (sp : Int) : Int → Nat → List Stmt
  | _, 0 => []
  | cur, k + 1 =>
    (substBlockVar loopVar cur body).toList ++ unrollChunks body loopVar sp (cur + sp) k

/-- Pattern: short-trip full unrolling (`N ≤ 8`, no `break`/`continue`, the
body does not redeclare the loop variable). -/
def tryUnroll (loopVar : String) (tc st sp : Int) (body : Block) : Option (List Stmt) :=
  if tc ≤ 8 && !blockHasLoopControl body && !blockHasDeclNamed body loopVar then
    some (unrollChunks body loopVar sp st tc.toNat)
  else none

/-- The strength-reduction pattern chain of `optBlock`'s `SK::For` case, in
source order; the first applicable pattern wins, a pattern whose checked
arithmetic fails falls through to the next. -/
def tryPatterns (negOv : Bool) (loopVar : String) (tc st sp : Int)
    (body : Block) : Option (List Stmt) :=
  tryBilinear negOv loopVar tc st sp body <|>
    tryPairCoupled negOv loopVar tc st sp body <|>
      tryModOrAffine negOv loopVar tc st sp body <|>
        tryPoly negOv loopVar tc st sp body <|>
          tryMultiAffine negOv loopVar tc st sp body <|>
            tryUnroll loopVar tc st sp body

/-- The `SK::For` case of `optBlock` for a loop preceded by the statements
`pre` of its block: resolve `start`/`stop`/`step` to i64 constants, delete
the loop when the trip count is zero, otherwise try the closed-form
patterns on a non-parallel loop.  `some reps` replaces the loop statement
with `reps`; `none` keeps the loop. -/
def optForStep (negOv : Bool) (pre : List Stmt) (loopVar : String)
    (start stop step : Expr) (parallel : Bool) (body : Block) : Option (List Stmt) :=
  match resolveLocalI64 pre start, resolveLocalI64 pre stop, resolveLocalI64 pre step with
  | some st, some en, some sp =>
    match tripCount st en sp with
    | some tc =>
      if tc = 0 then some []
      else if tc > 0 && !parallel then tryPatterns negOv loopVar tc st sp body
      else none
    | none => none
  | _, _, _ => none

end LS

namespace LS

/-! ## Constructor → free-function tables

`constructorFreeFnFromExpr` is the parser's table (used for `delete`
defaults); it consults the set of declared classes.  `ownedFreeFnForCtor`
is the type checker's own table (used for `declare owned` validation); it
is a static function without access to class names.  In the source both
return `""` for "no match". -/

/-- Parser (`Parser::constructorFreeFnFromExpr`), with `classes` the set of
declared class names. -/
def constructorFreeFnFromExpr (classes : List String) : Expr → String
  | .call f _ =>
    if classes.contains f then "object_free"
    else if f = "array_new" then "array_free"
    else if f = "dict_new" then "dict_free"
    else if f = "map_new" then "map_free"
    else if f = "object_new" then "object_free"
    else if f = "option_some" ∨ f = "option_none" then "option_free"
    else if f = "result_ok" ∨ f = "result_err" then "result_free"
    else if f = "np_new" then "np_free"
    else if f = "gfx_new" then "gfx_free"
    else if f = "game_new" then "game_free"
    else if f = "pg_surface_new" then "pg_surface_free"
    else if f = "phys_new" then "phys_free"
    else if f = "http_server_listen" then "http_server_close"
    else if f = "http_client_connect" then "http_client_close"
    else ""
  | _ => ""

/-- Type checker (`TypeCheck::ownedFreeFnForCtor`): the fixed table, with
no case for user-declared class constructors. -/
def ownedFreeFnForCtor : Expr → String
  | .call f _ =>
    if f = "array_new" then "array_free"
    else if f = "dict_new" then "dict_free"
    else if f = "map_new" then "map_free"
    else if f = "object_new" then "object_free"
    else if f = "np_new" ∨ f = "np_copy" ∨ f = "np_from_range" ∨ f = "np_linspace" then "np_free"
    else if f = "gfx_new" ∨ f = "pg_surface_new" then "gfx_free"
    else if f = "game_new" ∨ f = "pg_init" then "game_free"
    else if f = "phys_new" then "phys_free"
    else if f = "http_server_listen" then "http_server_close"
    else if f = "http_client_connect" then "http_client_close"
    else if f = "result_ok" ∨ f = "result_err" then "result_free"
    else if f = "option_some" ∨ f = "option_none" then "option_free"
    else ""
  | _ => ""

/-! ## Type checker (`TypeCheck`): scoping, owned handles, calls

Warnings are not collected (no claim reads them); in superuser mode a
demoted check simply passes.  The polymorphic special-cased built-ins of
the call case (`print`, `println`, `input*`, `formatOutput`, `max`, `min`,
`abs`, `clamp`, `.format`, `spawn`) are outside the modelled fragment and
produce a distinctive error; no claim exercises them. -/

structure Local where
  t : Ty
  isConst : Bool
  isOwned : Bool
  ownedFreeFn : String
deriving DecidableEq, Repr

abbrev Locals := List (String × Local)

def lookupAssoc {A : Type} : List (String × A) → String → Option A
  | [], _ => none
  | (k, v) :: r, key => if k = key then some v else lookupAssoc r key

def setAssoc {A : Type} : List (String × A) → String → A → List (String × A)
  | [], key, v => [(key, v)]
  | (k, w) :: r, key, v => if k = key then (k, v) :: r else (k, w) :: setAssoc r key v

/-- Type-checking context: superuser flag, function signature table
(`sig_`), overload groups (`overloads_`). -/
structure TC where
  su : Bool
  sigs : List (String × Sig)
  groups : List (String × List OverloadCandidate)

/-- `TypeCheck::req`: in superuser mode a failed check degrades to a
warning and checking continues. -/
def tcReq (su : Bool) (ok : Bool) (msg : String) : Except String Unit :=
  if ok then .ok () else if su then .ok () else .error msg

def canonicalSuperuserCallName (name : String) : String :=
  if name.startsWith "superuser." then "su." ++ name.drop 10 else name

def operatorOverrideSymbol : BK → String
  | .add => "__ls_op_add"
  | .sub => "__ls_op_sub"
  | .mul => "__ls_op_mul"
  | .div => "__ls_op_div"
  | .mod => "__ls_op_mod"
  | .pow => "__ls_op_pow"
  | .eq => "__ls_op_eq"
  | .neq => "__ls_op_neq"
  | .lt => "__ls_op_lt"
  | .lte => "__ls_op_lte"
  | .gt => "__ls_op_gt"
  | .gte => "__ls_op_gte"
  | .and => "__ls_op_and"
  | .or => "__ls_op_or"

def unaryOperatorOverrideSymbol : UK → String
  | .neg => "__ls_uop_neg"
  | .not => "__ls_uop_not"

def typeName : Ty → String
  | .i32 => "i32"
  | .i64 => "i64"
  | .f32 => "f32"
  | .f64 => "f64"
  | .bool => "bool"
  | .str => "str"
  | .void => "void"

def isLiteralZero : Expr → Bool
  | .intLit v => v = 0
  | _ => false

/-- Names special-cased polymorphically before the general call path. -/
def specialCallNames : List String :=
  ["superuser", "input", "input_i64", "input_f64", "print", "println",
   "formatOutput", "FormatOutput", "max", "min", "abs", "clamp", ".format", "spawn"]

/-- `tryResolvedOperator` of the binary case: a candidate operator symbol
types the node when it exists with arity 2 and both operands convert. -/
def tryResolvedBinOperator (ctx : TC) (a b : Ty) (sym : String) :
    Except String (Option Ty) :=
  if sym = "" then .ok none
  else
    match lookupAssoc ctx.sigs sym with
    | none => .ok none
    | some sg =>
      if sg.p.length ≠ 2 then
        if ctx.su then .ok none
        else .error "operator override must have 2 parameters"
      else
        match sg.p with
        | [p0, p1] => if can a p0 && can b p1 then .ok (some sg.r) else .ok none
        | _ => .ok none

/-- `tryResolvedUnaryOperator` of the unary case. -/
def tryResolvedUnaryOperator (ctx : TC) (t : Ty) (sym : String) :
    Except String (Option Ty) :=
  if sym = "" then .ok none
  else
    match lookupAssoc ctx.sigs sym with
    | none => .ok none
    | some sg =>
      if sg.p.length ≠ 1 then
        if ctx.su then .ok none
        else .error "unary operator override must have 1 parameter"
      else
        match sg.p with
        | [p0] => if can t p0 then .ok (some sg.r) else .ok none
        | _ => .ok none

/-- `failType`: superuser mode demotes the error and yields the fallback
type. -/
def tcFailType (ctx : TC) (msg : String) (fallback : Ty) : Except String Ty :=
  if ctx.su then .ok fallback else .error msg

mutual

/-- `TypeCheck::expr` on the modelled fragment. -/
def tcExpr (ctx : TC) (l : Locals) (throwsAllowed : List String) : Expr → Except String Ty
  | .intLit _ => .ok .i64
  | .boolLit _ => .ok .bool
  | .strLit _ => .ok .str
  | .var n =>
    match lookupAssoc l n with
    | none => tcFailType ctx ("unknown variable '" ++ n ++ "'") .i64
    | some lo => .ok lo.t
  | .unary op x ov => do
    let t ← tcExpr ctx l throwsAllowed x
    match ← tryResolvedUnaryOperator ctx t ov with
    | some rt => .ok rt
    | none =>
      match ← tryResolvedUnaryOperator ctx t (unaryOperatorOverrideSymbol op) with
      | some rt => .ok rt
      | none =>
        match op with
        | .neg =>
          if isNumTy t then .ok t
          else tcFailType ctx "unary '-' requires numeric" .i64
        | .not =>
          if t = .bool then .ok .bool
          else tcFailType ctx "unary '!' requires bool" .bool
  | .binary op el er ov => do
    let a ← tcExpr ctx l throwsAllowed el
    let b ← tcExpr ctx l throwsAllowed er
    match ← tryResolvedBinOperator ctx a b ov with
    | some rt => .ok rt
    | none =>
      match ← tryResolvedBinOperator ctx a b (operatorOverrideSymbol op) with
      | some rt => .ok rt
      | none =>
        match op with
        | .add | .sub | .mul =>
          if isNumTy a && isNumTy b then .ok (promote a b)
          else tcFailType ctx "arithmetic requires numeric" .i64
        | .div =>
          if isNumTy a && isNumTy b then do
            tcReq ctx.su (!isLiteralZero er) "division by zero"
            .ok (promote a b)
          else tcFailType ctx "arithmetic requires numeric" .i64
        | .mod =>
          if isIntTy a && isIntTy b then do
            tcReq ctx.su (!isLiteralZero er) "modulo by zero"
            .ok (promote a b)
          else tcFailType ctx "'%' requires integer operands" .i64
        | .pow =>
          if isNumTy a && isNumTy b then .ok (promote a b)
          else tcFailType ctx "power operator requires numeric" .i64
        | .lt | .lte | .gt | .gte =>
          if isNumTy a && isNumTy b then .ok .bool
          else tcFailType ctx "comparison requires numeric" .bool
        | .and | .or =>
          if a = .bool && b = .bool then .ok .bool
          else tcFailType ctx "logical operators require bool" .bool
        | .eq | .neq =>
          if a = b || (isNumTy a && isNumTy b) then .ok .bool
          else
            tcFailType ctx
              ("cannot compare '" ++ typeName a ++ "' with '" ++ typeName b ++ "'") .bool
  | .call f args => do
    let fnName := canonicalSuperuserCallName f
    if specialCallNames.contains fnName then
      .error ("unmodelled built-in '" ++ fnName ++ "'")
    else if fnName.startsWith "su." && !ctx.su then
      .error "Not privileged: call superuser() to enable developer superuser mode"
    else do
      let argTypes ← tcExprList ctx l throwsAllowed args
      let cand ←
        match resolveOverload ctx.su fnName (lookupAssoc ctx.groups fnName).toList.flatten
            argTypes with
        | .resolved c => .ok (some c)
        | .resolvedWithWarning c => .ok (some c)
        | .errAmbiguous msg => .error msg
        | .noCandidate => .ok none
      let cand ←
        match cand with
        | some c => .ok c
        | none =>
          match lookupAssoc ctx.sigs fnName with
          | none => .error ("unknown function '" ++ f ++ "'")
          | some sg => .ok (OverloadCandidate.mk fnName sg)
      let sg := cand.sig
      let _ ← sg.throws.mapM fun errName =>
        tcReq ctx.su (throwsAllowed.contains errName)
          ("call to '" ++ cand.symbol ++ "' may throw '" ++ errName ++ "'; add 'throws " ++
            errName ++ "' to the current function")
      tcReq ctx.su (sg.p.length = argTypes.length)
        ("function '" ++ cand.symbol ++ "' expects " ++ toString sg.p.length ++ " args")
      let _ ← (argTypes.zip sg.p).mapM fun pr =>
        tcReq ctx.su (can pr.1 pr.2)
          ("arg cannot convert '" ++ typeName pr.1 ++ "' to '" ++ typeName pr.2 ++ "'")
      .ok sg.r

def tcExprList (ctx : TC) (l : Locals) (throwsAllowed : List String) :
    ExprList → Except String (List Ty)
  | .nil => .ok []
  | .cons e r => do
    let t ← tcExpr ctx l throwsAllowed e
    let ts ← tcExprList ctx l throwsAllowed r
    .ok (t :: ts)

end

mutual
/-- `hasForbiddenAssign` (parallel-for outer-variable writes). -/
def stmtForbiddenAssign : Stmt → List String → Bool
  | .assign n _, forbidden => forbidden.contains n
  | .ifS _ t e, forbidden => blockForbiddenAssign t forbidden || blockForbiddenAssign e forbidden
  | .whileS _ b, forbidden => blockForbiddenAssign b forbidden
  | .forS _ _ _ _ _ b, forbidden => blockForbiddenAssign b forbidden
  | .formatBlock _ b, forbidden => blockForbiddenAssign b forbidden
  | _, _ => false

def blockForbiddenAssign : Block → List String → Bool
  | .nil, _ => false
  | .cons s r, forbidden => stmtForbiddenAssign s forbidden || blockForbiddenAssign r forbidden
end

mutual

/-- `TypeCheck::stmt`.  Returns the updated local table (only `declare`
extends it). -/
def tcStmt (ctx : TC) (l : Locals) (ret : Ty) (loopDepth : Nat)
    (throwsAllowed : List String) : Stmt → Except String Locals
  | .letS n decl isConst isOwned v => do
    tcReq ctx.su ((lookupAssoc l n).isNone) ("variable '" ++ n ++ "' already declared")
    let vt ← tcExpr ctx l throwsAllowed v
    let ft := decl.getD vt
    tcReq ctx.su (can vt ft)
      ("cannot convert '" ++ typeName vt ++ "' to '" ++ typeName ft ++ "'")
    if isOwned then do
      tcReq ctx.su (loopDepth = 0) "declare owned is not allowed inside loops"
      tcReq ctx.su (ft = Ty.i64) "declare owned requires i64 handle type"
      let freeFn := ownedFreeFnForCtor v
      tcReq ctx.su (freeFn ≠ "")
        "declare owned requires constructor call that has a matching free function"
      .ok (setAssoc l n ⟨ft, isConst, isOwned, freeFn⟩)
    else .ok (setAssoc l n ⟨ft, isConst, isOwned, ""⟩)
  | .assign n v => do
    tcReq ctx.su ((lookupAssoc l n).isSome)
      ("assignment to undeclared variable '" ++ n ++ "'")
    let vt ← tcExpr ctx l throwsAllowed v
    let lo := (lookupAssoc l n).getD ⟨.i64, false, false, ""⟩
    tcReq ctx.su (!lo.isConst) ("cannot assign to const variable '" ++ n ++ "'")
    tcReq ctx.su (!lo.isOwned)
      ("cannot assign to owned handle '" ++ n ++
        "'; release explicitly and declare a new owned handle")
    tcReq ctx.su (can vt lo.t)
      ("cannot assign '" ++ typeName vt ++ "' to '" ++ typeName lo.t ++ "'")
    .ok l
  | .exprS e => do
    let _ ← tcExpr ctx l throwsAllowed e
    .ok l
  | .retS has v =>
    match has, v with
    | false, _ => do
      tcReq ctx.su (ret = Ty.void) "missing return value"
      .ok l
    | true, some ve => do
      (match ve with
       | .var rn =>
         match lookupAssoc l rn with
         | some lo =>
           tcReq ctx.su (!lo.isOwned) ("cannot return owned handle variable '" ++ rn ++ "'")
         | none => .ok ()
       | _ => .ok ())
      let vt ← tcExpr ctx l throwsAllowed ve
      tcReq ctx.su (can vt ret)
        ("cannot return '" ++ typeName vt ++ "' from '" ++ typeName ret ++ "'")
      .ok l
    | true, none => .error "internal: return with missing value expression"
  | .ifS c t e => do
    let ct ← tcExpr ctx l throwsAllowed c
    tcReq ctx.su (ct = Ty.bool) "if condition must be bool"
    let _ ← tcBlock ctx l ret loopDepth throwsAllowed t
    let _ ← tcBlock ctx l ret loopDepth throwsAllowed e
    .ok l
  | .whileS c b => do
    let ct ← tcExpr ctx l throwsAllowed c
    tcReq ctx.su (ct = Ty.bool) "while condition must be bool"
    let _ ← tcBlock ctx l ret (loopDepth + 1) throwsAllowed b
    .ok l
  | .forS n start stop step parallel b => do
    let st ← tcExpr ctx l throwsAllowed start
    let en ← tcExpr ctx l throwsAllowed stop
    let sp ← tcExpr ctx l throwsAllowed step
    tcReq ctx.su (st = Ty.i64) "for range start must be i64"
    tcReq ctx.su (en = Ty.i64) "for range stop must be i64"
    tcReq ctx.su (sp = Ty.i64) "for range step must be i64"
    tcReq ctx.su (!(step = Expr.intLit 0)) "for range step cannot be zero"
    tcReq ctx.su (!(parallel && blockHasLoopControl b))
      "parallel for does not support break/continue"
    tcReq ctx.su
      (!(parallel && blockForbiddenAssign b (n :: l.map Prod.fst)))
      "parallel for cannot assign to outer variables"
    let _ ← tcBlock ctx (setAssoc l n ⟨.i64, false, false, ""⟩) ret (loopDepth + 1)
      throwsAllowed b
    .ok l
  | .formatBlock endArg b => do
    (match endArg with
     | some ea => do
       let et ← tcExpr ctx l throwsAllowed ea
       tcReq ctx.su (et = Ty.str) "formatOutput block end argument must be str"
     | none => .ok ())
    let _ ← tcBlock ctx l ret loopDepth throwsAllowed b
    .ok l
  | .breakS => do
    tcReq ctx.su (loopDepth > 0) "'break' can only be used inside loops"
    .ok l
  | .continueS => do
    tcReq ctx.su (loopDepth > 0) "'continue' can only be used inside loops"
    .ok l

/-- `TypeCheck::block`: the local table is passed **by value** in the
source, so declarations inside a nested block never escape it; within one
block the table threads from statement to statement. -/
def tcBlock (ctx : TC) (l : Locals) (ret : Ty) (loopDepth : Nat)
    (throwsAllowed : List String) : Block → Except String Locals
  | .nil => .ok l
  | .cons s r => do
    let l1 ← tcStmt ctx l ret loopDepth throwsAllowed s
    tcBlock ctx l1 ret loopDepth throwsAllowed r

end

/-- `TypeCheck::fn`: parameters populate the local table (duplicates are an
error outside superuser mode), then the body is checked. -/
def tcFnParams (ctx : TC) : List (String × Ty) → Locals → Except String Locals
  | [], l => .ok l
  | (n, t) :: rest, l => do
    tcReq ctx.su ((lookupAssoc l n).isNone) ("duplicate parameter '" ++ n ++ "'")
    tcFnParams ctx rest (setAssoc l n ⟨t, false, false, ""⟩)

def tcFn (ctx : TC) (params : List (String × Ty)) (ret : Ty)
    (throws : List String) (body : Block) : Except String Locals := do
  let l ← tcFnParams ctx params []
  tcBlock ctx l ret 0 throws body

end LS

namespace LS

/-! ## Lexer: string literals (`Lexer::readString`)

The input is the character stream after the opening quote; `s` is the span
recorded at the opening quote, carried into every error. -/

structure Span where
  line : Nat
  col : Nat
deriving DecidableEq, Repr

def readStrAux (s : Span) (out : String) : List Char → Except (Span × String) (String × List Char)
  | [] => .error (s, "unterminated string literal")
  | c :: rest =>
    if c = '"' then .ok (out, rest)
    else if c = '\\' then
      match rest with
      | [] => .error (s, "unterminated escape sequence in string literal")
      | e :: rest2 =>
        if e = 'n' then readStrAux s (out.push '\n') rest2
        else if e = 'r' then readStrAux s (out.push '\r') rest2
        else if e = 't' then readStrAux s (out.push '\t') rest2
        else if e = '\\' then readStrAux s (out.push '\\') rest2
        else if e = '"' then readStrAux s (out.push '"') rest2
        else .error (s, "unsupported escape sequence '\\" ++ String.singleton e ++ "'")
    else if c = '\n' then .error (s, "unterminated string literal")
    else readStrAux s (out.push c) rest

/-- `Lexer::readString` (after consuming the opening quote): the produced
literal text and the remaining input. -/
def readString (s : Span) (input : List Char) : Except (Span × String) (String × List Char) :=
  readStrAux s "" input

/-! ## C emitter: entry-point selection and entry wrapper -/

def scriptEntryName : String := "__linescript_script_main"

structure FnMeta where
  n : String
  ex : Bool
  isCliFlag : Bool
  nParams : Nat
  ret : Ty
deriving DecidableEq, Repr

structure EntrySel where
  mainE : Option FnMeta
  scriptE : Option FnMeta
  firstZero : Option FnMeta
  zeroCount : Nat
deriving DecidableEq, Repr

/-- The scan loop of the `EmitC` constructor over the program's functions:
extern and cli-flag functions are skipped; the last function named `main` /
`__linescript_script_main` is recorded, along with the first zero-argument
function and how many there are. -/
def entryScan : List FnMeta → EntrySel → EntrySel
  | [], st => st
  | f :: r, st =>
    if f.ex || f.isCliFlag then entryScan r st
    else
      let st1 := if f.n = "main" then { st with mainE := some f } else st
      let st2 := if f.n = scriptEntryName then { st1 with scriptE := some f } else st1
      let st3 :=
        if f.nParams = 0 then
          { st2 with
            zeroCount := st2.zeroCount + 1
            firstZero := if st2.firstZero.isNone then some f else st2.firstZero }
        else st2
      entryScan r st3

def noEntryMsg : String :=
  "no runnable entry point found; add top-level statements, define main(), or define one zero-argument function"

def ambiguousEntryMsg : String :=
  "ambiguous entry point: multiple zero-argument functions found; define main(), add top-level statements, or keep only one zero-argument function"

/-- Entry selection: script entry, else `main`, else the sole zero-argument
function; zero candidates and multiple zero-argument functions fail with
distinct messages.  (When `zeroCount = 1` the recorded first zero-argument
function necessarily exists; the `noEntryMsg` fallback arm is
unreachable.) -/
def selectEntry (fns : List FnMeta) : Except String FnMeta :=
  let st := entryScan fns ⟨none, none, none, 0⟩
  match st.scriptE with
  | some f => .ok f
  | none =>
    match st.mainE with
    | some f => .ok f
    | none =>
      if st.zeroCount = 1 then
        match st.firstZero with
        | some f => .ok f
        | none => .error noEntryMsg
      else if st.zeroCount = 0 then .error noEntryMsg
      else .error ambiguousEntryMsg

/-- What the generated `int main(void)` wrapper returns. -/
inductive WrapperRet where
  | returnsZero
  | returnsCast
deriving DecidableEq, Repr

/-- `EmitC::emitEntryWrapper` (normal, non-ultra-minimal path): `void` and
`str` entries produce `return 0;`, anything else `return (int)entry();`. -/
def mainWrapperRet : Ty → WrapperRet
  | .void => .returnsZero
  | .str => .returnsZero
  | _ => .returnsCast

/-! ## Typed-IR bundle hashes (`fnv1a64`, `computeBuildConfigHash`)

Byte strings are `List Nat` (byte values); the 64-bit state wraps
modulo `2^64`. -/

def fnvSeed : Nat := 1469598103934665603

def fnvPrime : Nat := 1099511628211

def fnv1a64 (s : List Nat) (seed : Nat) : Nat :=
  s.foldl (fun h c => ((h ^^^ c) * fnvPrime) % 2 ^ 64) seed

def hexDigitByte (d : Nat) : Nat := if d < 10 then 48 + d else 87 + d

/-- `hex64`: 16 lowercase hex digits, zero-padded. -/
def hex64 (v : Nat) : List Nat :=
  (List.range 16).map fun k => hexDigitByte (v / 16 ^ (15 - k) % 16)

def strAscii (s : String) : List Nat := s.data.map Char.toNat

/-- `std::to_string` of a nonnegative integer, as bytes. -/
def natToDecBytes (n : Nat) : List Nat := (Nat.toDigits 10 n).map Char.toNat

/-- `computeSourceStateHash` (as a 64-bit value): chain the FNV-1a state
over each input's path bytes, then its content bytes. -/
def sourceStateHashU64 (inputs : List (List Nat × List Nat)) : Nat :=
  inputs.foldl (fun h pr => fnv1a64 pr.2 (fnv1a64 pr.1 h)) fnvSeed

/-- `computeSourceStateHash`: the hex string (as bytes) of the chained
hash. -/
def computeSourceStateHash (inputs : List (List Nat × List Nat)) : List Nat :=
  hex64 (sourceStateHashU64 inputs)

/-- `computeBuildConfigHash` (as a 64-bit value; the source formats it with
`hex64`, which is injective below `2^64`): FNV-1a chained over a fixed tag,
the source-state hash text, and the build-configuration strings. -/
def computeBuildConfigHash (inputs : List (List Nat × List Nat))
    (cc backend : List Nat) (maxSpeed : Bool) (passes : Nat)
    (target sysroot linker : List Nat) : Nat :=
  let h := fnvSeed
  let h := fnv1a64 (strAscii "LineScript-compile-cache-v1") h
  let h := fnv1a64 (computeSourceStateHash inputs) h
  let h := fnv1a64 cc h
  let h := fnv1a64 backend h
  let h := fnv1a64 (if maxSpeed then strAscii "1" else strAscii "0") h
  let h := fnv1a64 (natToDecBytes passes) h
  let h := fnv1a64 target h
  let h := fnv1a64 sysroot h
  fnv1a64 linker h

end LS

namespace LS

/-! ## Derived definitions used by the claim theorems -/

/-- The call-target rewriting of `TypeCheck::expr`'s general call path
(`n.f = cand->symbol`): the resolved overload's mangled symbol, or the
canonical name itself on the signature-table fallback. -/
def rewrittenCallTarget (ctx : TC) (f : String) (argTypes : List Ty) : Except String String :=
  let fnName := canonicalSuperuserCallName f
  match resolveOverload ctx.su fnName (lookupAssoc ctx.groups fnName).toList.flatten argTypes with
  | .resolved c => .ok c.symbol
  | .resolvedWithWarning c => .ok c.symbol
  | .errAmbiguous msg => .error msg
  | .noCandidate =>
    match lookupAssoc ctx.sigs fnName with
    | none => .error ("unknown function '" ++ f ++ "'")
    | some _ => .ok fnName

/-- Admissible candidates of an overload group with their total costs, in
group order. -/
def admissiblePairs (argTypes : List Ty) (cands : List OverloadCandidate) :
    List (OverloadCandidate × Int) :=
  cands.filterMap fun c => (candidateCost argTypes c).map fun k => (c, k)

/-- The byte stream `computeSourceStateHash` actually hashes: each input's
path bytes followed by its content bytes, concatenated. -/
def flattenInputBytes (inputs : List (List Nat × List Nat)) : List Nat :=
  (inputs.map fun pr => pr.1 ++ pr.2).flatten

/-- The five safe-widening pairs of the specification. -/
def isSpecWidening (a b : Ty) : Prop :=
  (a = .i32 ∧ b = .i64) ∨ (a = .i32 ∧ b = .f32) ∨ (a = .i32 ∧ b = .f64) ∨
    (a = .i64 ∧ b = .f64) ∨ (a = .f32 ∧ b = .f64)

instance (a b : Ty) : Decidable (isSpecWidening a b) := by
  unfold isSpecWidening; infer_instance

/-- Boolean form of the specification's five safe-widening pairs. -/
def specWiden (a b : Ty) : Bool :=
  (a == .i32 && b == .i64) || (a == .i32 && b == .f32) || (a == .i32 && b == .f64) ||
    (a == .i64 && b == .f64) || (a == .f32 && b == .f64)

/-- Per-argument conversion cost exactly as the specification words it:
0 for an exact type match, 1 for one of the five safe widenings, rejection
(`none`) otherwise. -/
def specArgCost (a p : Ty) : Option Int :=
  if a = p then some 0 else if specWiden a p then some 1 else none

/-- Sum of per-argument costs, `none` as soon as one argument is rejected. -/
def sumCosts : List (Option Int) → Option Int
  | [] => some 0
  | none :: _ => none
  | some c :: r => (sumCosts r).map fun s => c + s

/-- Candidate cost exactly as the specification words it: the arity must
match, every argument must be convertible, and the total is the sum of the
per-argument costs. -/
def specCandCost (argTypes : List Ty) (cand : OverloadCandidate) : Option Int :=
  if cand.sig.p.length = argTypes.length then
    sumCosts (List.zipWith specArgCost argTypes cand.sig.p)
  else none

/-! ### Concrete programs of the end-to-end scenarios -/

/-- Scenario D loop body: `acc = acc + state; state = state + (i + 1)`. -/
def progDLoopBody : Block :=
  .cons (.assign "acc" (.binary .add (.var "acc") (.var "state") ""))
    (.cons (.assign "state" (.binary .add (.var "state") (.binary .add (.var "i") (.intLit 1) "") ""))
      .nil)

/-- The declarations preceding scenario D's loop. -/
def progDPre : List Stmt :=
  [.letS "acc" (some .i64) false false (.intLit 0),
   .letS "state" (some .i64) false false (.intLit 0)]

/-- Scenario D:
`declare acc: i64 = 0; declare state: i64 = 0;`
`for i in 0..5 step 1 do acc = acc + state; state = state + (i + 1) end;`
`println(acc); println(state)`. -/
def progD : Block :=
  Block.ofList (progDPre ++
    [.forS "i" (.intLit 0) (.intLit 5) (.intLit 1) false progDLoopBody,
     .exprS (.call "println" (.cons (.var "acc") .nil)),
     .exprS (.call "println" (.cons (.var "state") .nil))])

/-- Scenario D with the loop replaced by the optimizer's pair-coupled
reduction. -/
def progDReduced : Block :=
  Block.ofList (progDPre ++ pairReps "acc" "state" 5 20 15 ++
    [.exprS (.call "println" (.cons (.var "acc") .nil)),
     .exprS (.call "println" (.cons (.var "state") .nil))])

/-- Body of a function `f(c: bool)`:
`declare x: i64 = 0; if c { x = 5 }; println(x)` — the store `x = 5` is
observed by the `println` after the `if`. -/
def progDse : Block :=
  .cons (.letS "x" (some .i64) false false (.intLit 0))
    (.cons (.ifS (.var "c") (.cons (.assign "x" (.intLit 5)) .nil) .nil)
      (.cons (.exprS (.call "println" (.cons (.var "x") .nil))) .nil))

/-- `progDse` after dead-store elimination: the `x = 5` inside the `if`
branch is gone. -/
def progDsePruned : Block :=
  .cons (.letS "x" (some .i64) false false (.intLit 0))
    (.cons (.ifS (.var "c") .nil .nil)
      (.cons (.exprS (.call "println" (.cons (.var "x") .nil))) .nil))

/-- The loop body `i = i + 3` (the reduction target is the loop variable
itself). -/
def progLoopVarBody : Block :=
  .cons (.assign "i" (.binary .add (.var "i") (.intLit 3) "")) .nil

/-- `declare i: i64 = 0; for i in 0..8 step 1 do i = i + 3 end; println(i)`
— the loop variable shadows the outer `i`, so the loop has no observable
effect and the program prints `0`. -/
def progLoopVar : Block :=
  .cons (.letS "i" (some .i64) false false (.intLit 0))
    (.cons (.forS "i" (.intLit 0) (.intLit 8) (.intLit 1) false progLoopVarBody)
      (.cons (.exprS (.call "println" (.cons (.var "i") .nil))) .nil))

/-- `progLoopVar` after the optimizer's single-affine reduction replaces
the loop with `i = i + 24`, now targeting the outer `i`. -/
def progLoopVarOpt : Block :=
  .cons (.letS "i" (some .i64) false false (.intLit 0))
    (.cons (selfAddConst "i" 24)
      (.cons (.exprS (.call "println" (.cons (.var "i") .nil))) .nil))

/-- The initializer `P(7)` of scenario E's owned declaration. -/
def ctorCallP7 : Expr := .call "P" (.cons (.intLit 7) .nil)

/-- Scenario E's owned declaration `declare owned p = P(7)`. -/
def declOwnedP : Stmt := .letS "p" none false true ctorCallP7

/-- A checking context in which the class `P`'s synthesized constructor is
registered under the class name with signature `(i64) → i64`, as
`Parser::parseClass` produces and `TypeCheck::collect` registers it. -/
def ctxClassP : TC :=
  { su := false
    sigs := [("P", ⟨[.i64], .i64, []⟩)]
    groups := [("P", [⟨"P", ⟨[.i64], .i64, []⟩⟩])] }

end LS

namespace LS

/-- Colliding input lists: path `"ab"` with contents `"c"`. -/
def inAB_C : List (List Nat × List Nat) := [([97, 98], [99])]

/-- Colliding input lists: path `"a"` with contents `"bc"`. -/
def inA_BC : List (List Nat × List Nat) := [([97], [98, 99])]

/-- Body of the overflow loop: `acc = acc + 1`. -/
def progC6Body : Block :=
  .cons (.assign "acc" (.binary .add (.var "acc") (.intLit 1) "")) .nil

/-- The loop whose trip-count numerator overflows `int64_t` in the source:
`declare acc: i64 = 0;`
`for i in 0..9223372036854775807 step 9223372036854775807 do acc = acc + 1 end;`
`println(acc)` — the loop body executes exactly once. -/
def progC6 : Block :=
  Block.ofList
    [.letS "acc" (some .i64) false false (.intLit 0),
     .forS "i" (.intLit 0) (.intLit (2 ^ 63 - 1)) (.intLit (2 ^ 63 - 1)) false progC6Body,
     .exprS (.call "println" (.cons (.var "acc") .nil))]

/-- `progC6` after the optimizer's zero-trip-count deletion of its loop. -/
def progC6Del : Block :=
  Block.ofList
    [.letS "acc" (some .i64) false false (.intLit 0),
     .exprS (.call "println" (.cons (.var "acc") .nil))]

/-! # Claim theorems -/

/-- C1 counterexample.  For the literal scenario-D program the claim
asserts final values `acc = 10`, `state = 15` and stdout `10` then `15`;
executing the program (5 iterations, `acc` accumulating `state` before its
update) actually leaves `acc = 20` and prints `20` then `15`. -/
theorem c1_scenarioD_counterexample :
    execBlock 100 [] progD =
      some ([("state", .vInt 15), ("acc", .vInt 20)], [.vInt 20, .vInt 15], .norm) ∧
    ([Value.vInt 20, Value.vInt 15] ≠ [Value.vInt 10, Value.vInt 15]) := by
  constructor
  · decide
  · decide

/-- C1 amended.  Scenario D's program leaves `acc = 20`, `state = 15` and
prints `20` then `15`; the optimizer's pair-coupled reduction replaces the
loop with `acc = acc + (state*5 + 20); state = state + 15`, and the reduced
program computes the same final values and output. -/
theorem c1_scenarioD_pair_coupled :
    execBlock 100 [] progD =
      some ([("state", .vInt 15), ("acc", .vInt 20)], [.vInt 20, .vInt 15], .norm) ∧
    optForStep false progDPre "i" (.intLit 0) (.intLit 5) (.intLit 1) false progDLoopBody =
      some (pairReps "acc" "state" 5 20 15) ∧
    execBlock 100 [] progDReduced =
      some ([("state", .vInt 15), ("acc", .vInt 20)], [.vInt 20, .vInt 15], .norm) := by
  refine ⟨by decide, by decide, by decide⟩

/-- C2.  The type checker's owned-handle table `ownedFreeFnForCtor` has no
case for user-class constructor calls, so `declare owned p = P(7)` is
rejected with "declare owned requires constructor call that has a matching
free function" — although the parser's own constructor→free table (used
for `delete`) maps class-constructor calls to `object_free`, and the claim
says the declaration is accepted with free function `object_free`. -/
theorem c2_owned_class_ctor_rejected :
    ownedFreeFnForCtor ctorCallP7 = "" ∧
    constructorFreeFnFromExpr ["P"] ctorCallP7 = "object_free" ∧
    tcStmt ctxClassP [] .void 0 [] declOwnedP =
      .error "declare owned requires constructor call that has a matching free function" := by
  refine ⟨by decide, by decide, by rfl⟩

/-- C3.  Dead-store elimination is unsound for stores inside an `if` branch
that are observed after the `if`: in the body of `f(c: bool)` given by
`progDse`, the store `x = 5` is removed because the read-scan only covers
the branch's own block, and under `c = true` the original body prints `5`
while the pruned body prints `0`. -/
theorem c3_prune_removes_observed_store :
    pruneDeadLocalStores progDse = progDsePruned ∧
    execBlock 100 [("c", .vBool true)] progDse =
      some ([("x", .vInt 5), ("c", .vBool true)], [.vInt 5], .norm) ∧
    execBlock 100 [("c", .vBool true)] progDsePruned =
      some ([("x", .vInt 0), ("c", .vBool true)], [.vInt 0], .norm) ∧
    ([Value.vInt 5] ≠ [Value.vInt 0]) := by
  refine ⟨by decide, by decide, by decide, by decide⟩

/-- C4.  The single-affine strength reduction does not exclude the loop
variable as reduction target: for
`declare i: i64 = 0; for i in 0..8 step 1 do i = i + 3 end; println(i)`
the optimizer replaces the loop by `i = i + 24`, which now targets the
outer `i`; the original program prints `0`, the transformed one `24`. -/
theorem c4_loopvar_reduction_unsound :
    optForStep false [Stmt.letS "i" (some .i64) false false (.intLit 0)] "i"
        (.intLit 0) (.intLit 8) (.intLit 1) false progLoopVarBody =
      some [selfAddConst "i" 24] ∧
    execBlock 100 [] progLoopVar =
      some ([("i", .vInt 0)], [.vInt 0], .norm) ∧
    execBlock 100 [] progLoopVarOpt =
      some ([("i", .vInt 24)], [.vInt 24], .norm) ∧
    ([Value.vInt 0] ≠ [Value.vInt 24]) := by
  refine ⟨by decide, by decide, by decide, by decide⟩

set_option maxRecDepth 8000 in
/-- C8 counterexample.  `config_hash` chains FNV-1a over path and content
bytes with no separators, so the distinct input lists
`[("ab", "c")]` and `[("a", "bc")]` — everything else identical — produce
the identical `config_hash`, refuting "changing any one of them produces a
different `config_hash`". -/
theorem c8_concat_collision :
    computeBuildConfigHash inAB_C (strAscii "clang") (strAscii "c") false 12
        (strAscii "") (strAscii "") (strAscii "") =
      computeBuildConfigHash inA_BC (strAscii "clang") (strAscii "c") false 12
        (strAscii "") (strAscii "") (strAscii "") ∧
    inAB_C ≠ inA_BC := by
  refine ⟨by decide, by decide⟩

end LS

namespace LS

/-- FNV-1a chaining: hashing a concatenation equals chaining the state. -/
theorem fnv1a64_append (s t : List Nat) (seed : Nat) :
    fnv1a64 (s ++ t) seed = fnv1a64 t (fnv1a64 s seed) := by
  simp [fnv1a64, List.foldl_append]

/-- The source-state chain only depends on the concatenated byte stream. -/
theorem sourceStateHash_eq_fnv_flatten (inputs : List (List Nat × List Nat)) :
    sourceStateHashU64 inputs = fnv1a64 (flattenInputBytes inputs) fnvSeed := by
  suffices h : ∀ (l : List (List Nat × List Nat)) (seed : Nat),
      List.foldl (fun h pr => fnv1a64 pr.2 (fnv1a64 pr.1 h)) seed l =
        fnv1a64 (flattenInputBytes l) seed by
    simpa [sourceStateHashU64] using h inputs fnvSeed
  intro l
  induction l with
  | nil => intro seed; simp [flattenInputBytes, fnv1a64]
  | cons pr rest ih =>
    intro seed
    have hflat : flattenInputBytes (pr :: rest) = (pr.1 ++ pr.2) ++ flattenInputBytes rest := by
      simp [flattenInputBytes]
    simp only [List.foldl_cons, ih, hflat, fnv1a64_append]

/-- C8 (amended).  `config_hash` is a deterministic function of the build
configuration, but it factors through the concatenated input byte stream:
any two input lists whose concatenated path/content bytes coincide produce
the identical `config_hash` (so a change of the inputs component is only
guaranteed to change the hash when it changes that stream, up to FNV-1a
collisions). -/
theorem c8_config_hash_factors_through_stream
    (inputs₁ inputs₂ : List (List Nat × List Nat)) (cc backend : List Nat)
    (maxSpeed : Bool) (passes : Nat) (target sysroot linker : List Nat)
    (h : flattenInputBytes inputs₁ = flattenInputBytes inputs₂) :
    computeBuildConfigHash inputs₁ cc backend maxSpeed passes target sysroot linker =
      computeBuildConfigHash inputs₂ cc backend maxSpeed passes target sysroot linker := by
  simp only [computeBuildConfigHash, computeSourceStateHash,
    sourceStateHash_eq_fnv_flatten, h]

set_option maxRecDepth 8000 in
/-- Witness for C8's amended theorem at the concrete colliding inputs. -/
theorem c8_config_hash_factors_witness :
    flattenInputBytes inAB_C = flattenInputBytes inA_BC ∧
    computeBuildConfigHash inAB_C (strAscii "clang") (strAscii "c") false 12
        (strAscii "") (strAscii "") (strAscii "") =
      computeBuildConfigHash inA_BC (strAscii "clang") (strAscii "c") false 12
        (strAscii "") (strAscii "") (strAscii "") :=
  ⟨by decide,
   c8_config_hash_factors_through_stream inAB_C inA_BC (strAscii "clang") (strAscii "c")
     false 12 (strAscii "") (strAscii "") (strAscii "") (by decide)⟩

theorem readStrAux_error_span (s : Span) :
    ∀ (n : Nat) (inp : List Char), inp.length ≤ n →
      ∀ (out : String) (sp : Span) (msg : String),
        readStrAux s out inp = .error (sp, msg) → sp = s := by
  intro n
  induction n with
  | zero =>
    intro inp hlen out sp msg hr
    have hnil : inp = [] := List.length_eq_zero.mp (Nat.le_zero.mp hlen)
    subst hnil
    rw [readStrAux.eq_def] at hr
    simp only [Except.error.injEq, Prod.mk.injEq] at hr
    exact hr.1.symm
  | succ n ih =>
    intro inp hlen out sp msg hr
    rw [readStrAux.eq_def] at hr
    split at hr
    · simp only [Except.error.injEq, Prod.mk.injEq] at hr
      exact hr.1.symm
    · rename_i c rest
      by_cases hq : c = '"'
      · rw [if_pos hq] at hr
        exact absurd hr (by simp)
      · rw [if_neg hq] at hr
        by_cases hb : c = '\\'
        · rw [if_pos hb] at hr
          split at hr
          · simp only [Except.error.injEq, Prod.mk.injEq] at hr
            exact hr.1.symm
          · rename_i e rest2
            have hlen2 : rest2.length ≤ n := by
              simp only [List.length_cons] at hlen
              omega
            by_cases h1 : e = 'n'
            · rw [if_pos h1] at hr
              exact ih rest2 hlen2 _ sp msg hr
            · rw [if_neg h1] at hr
              by_cases h2 : e = 'r'
              · rw [if_pos h2] at hr
                exact ih rest2 hlen2 _ sp msg hr
              · rw [if_neg h2] at hr
                by_cases h3 : e = 't'
                · rw [if_pos h3] at hr
                  exact ih rest2 hlen2 _ sp msg hr
                · rw [if_neg h3] at hr
                  by_cases h4 : e = '\\'
                  · rw [if_pos h4] at hr
                    exact ih rest2 hlen2 _ sp msg hr
                  · rw [if_neg h4] at hr
                    by_cases h5 : e = '"'
                    · rw [if_pos h5] at hr
                      exact ih rest2 hlen2 _ sp msg hr
                    · rw [if_neg h5] at hr
                      simp only [Except.error.injEq, Prod.mk.injEq] at hr
                      exact hr.1.symm
        · rw [if_neg hb] at hr
          by_cases hn : c = '\n'
          · rw [if_pos hn] at hr
            simp only [Except.error.injEq, Prod.mk.injEq] at hr
            exact hr.1.symm
          · rw [if_neg hn] at hr
            have hlen2 : rest.length ≤ n := by
              simp only [List.length_cons] at hlen
              omega
            exact ih rest hlen2 _ sp msg hr

/-- C9.  Inside a double-quoted string literal the lexer accepts exactly
the escapes `\n \r \t \\ \"` (producing newline, carriage return, tab,
backslash, quote), fails on any other escaped character with an
"unsupported escape sequence" error, fails on a raw newline or end of
input with an "unterminated string literal" error (end of input directly
after a backslash: "unterminated escape sequence"), and every failure
carries the span recorded at the start of the literal. -/
theorem c9_read_string_escapes :
    (∀ (s : Span) (out : String) (rest : List Char),
      readStrAux s out ('\\' :: 'n' :: rest) = readStrAux s (out.push '\n') rest ∧
      readStrAux s out ('\\' :: 'r' :: rest) = readStrAux s (out.push '\r') rest ∧
      readStrAux s out ('\\' :: 't' :: rest) = readStrAux s (out.push '\t') rest ∧
      readStrAux s out ('\\' :: '\\' :: rest) = readStrAux s (out.push '\\') rest ∧
      readStrAux s out ('\\' :: '"' :: rest) = readStrAux s (out.push '"') rest) ∧
    (∀ (s : Span) (out : String) (e : Char) (rest : List Char),
      e ∉ (['n', 'r', 't', '\\', '"'] : List Char) →
      readStrAux s out ('\\' :: e :: rest) =
        .error (s, "unsupported escape sequence '\\" ++ String.singleton e ++ "'")) ∧
    (∀ (s : Span) (out : String) (rest : List Char),
      readStrAux s out ('\n' :: rest) = .error (s, "unterminated string literal")) ∧
    (∀ (s : Span) (out : String),
      readStrAux s out [] = .error (s, "unterminated string literal")) ∧
    (∀ (s : Span) (out : String),
      readStrAux s out ['\\'] = .error (s, "unterminated escape sequence in string literal")) ∧
    (∀ (s : Span) (input : List Char) (sp : Span) (msg : String),
      readString s input = .error (sp, msg) → sp = s) := by
  refine ⟨?_, ?_, ?_, ?_, ?_, ?_⟩
  · intro s out rest
    exact ⟨rfl, rfl, rfl, rfl, rfl⟩
  · intro s out e rest he
    simp only [List.mem_cons, List.not_mem_nil, or_false, not_or] at he
    obtain ⟨h1, h2, h3, h4, h5⟩ := he
    have h0 : readStrAux s out ('\\' :: e :: rest) =
        (if e = 'n' then readStrAux s (out.push '\n') rest
         else if e = 'r' then readStrAux s (out.push '\r') rest
         else if e = 't' then readStrAux s (out.push '\t') rest
         else if e = '\\' then readStrAux s (out.push '\\') rest
         else if e = '"' then readStrAux s (out.push '"') rest
         else Except.error
           (s, "unsupported escape sequence '\\" ++ String.singleton e ++ "'")) := rfl
    rw [h0, if_neg h1, if_neg h2, if_neg h3, if_neg h4, if_neg h5]
  · intro s out rest
    cases rest with
    | nil => rfl
    | cons e rest2 => rfl
  · intro s out
    rfl
  · intro s out
    rfl
  · intro s input sp msg hr
    exact readStrAux_error_span s input.length input (Nat.le_refl _) "" sp msg hr

/-- Witness for C9 at concrete inputs: a bad escape and an unterminated
literal both fail with the literal's span. -/
theorem c9_read_string_escapes_witness :
    ('q' ∉ (['n', 'r', 't', '\\', '"'] : List Char)) ∧
    readStrAux ⟨3, 7⟩ "" ('\\' :: 'q' :: []) =
      .error (⟨3, 7⟩, "unsupported escape sequence '\\" ++ String.singleton 'q' ++ "'") ∧
    readStrAux ⟨3, 7⟩ "ab" ('\n' :: []) = .error (⟨3, 7⟩, "unterminated string literal") :=
  ⟨by decide, c9_read_string_escapes.2.1 ⟨3, 7⟩ "" 'q' [] (by decide),
   c9_read_string_escapes.2.2.1 ⟨3, 7⟩ "ab" []⟩

end LS

namespace LS

/-- For `0 < s` and `0 < x`, the C computation `(x + s - 1) / s` (operands
nonnegative, so truncating and floor division agree) is the ceiling of
`x / s`. -/
theorem tdiv_shift_eq_ceil (x s : Int) (hs : 0 < s) (hx : 0 < x) :
    (x + s - 1).tdiv s = ⌈(x : ℚ) / (s : ℚ)⌉ := by
  have hD0 : (0 : Int) ≤ x + s - 1 := by omega
  have hs0 : (0 : Int) ≤ s := le_of_lt hs
  rw [Int.tdiv_eq_ediv hD0 hs0]
  have hsne : s ≠ 0 := by omega
  have hadd := Int.ediv_add_emod (x + s - 1) s
  have hmlt : (x + s - 1) % s < s := Int.emod_lt_of_pos _ hs
  have hmge : 0 ≤ (x + s - 1) % s := Int.emod_nonneg _ hsne
  obtain ⟨t, ht⟩ : ∃ t, s * ((x + s - 1) / s) = t := ⟨_, rfl⟩
  rw [ht] at hadd
  have h1 : (((x + s - 1) / s) - 1) * s < x := by
    have : t ≤ x + s - 1 := by omega
    nlinarith [ht]
  have h2 : x ≤ ((x + s - 1) / s) * s := by
    have : x + s - 1 < t + s := by omega
    nlinarith [ht]
  symm
  rw [Int.ceil_eq_iff]
  have hsQ : (0 : ℚ) < (s : ℚ) := by exact_mod_cast hs
  constructor
  · rw [lt_div_iff₀ hsQ]
    calc ((((x + s - 1) / s : Int) : ℚ) - 1) * (s : ℚ)
        = (((((x + s - 1) / s) - 1) * s : Int) : ℚ) := by push_cast; ring
      _ < (x : ℚ) := by exact_mod_cast h1
  · rw [div_le_iff₀ hsQ]
    calc (x : ℚ) ≤ ((((x + s - 1) / s) * s : Int) : ℚ) := by exact_mod_cast h2
      _ = (((x + s - 1) / s : Int) : ℚ) * (s : ℚ) := by push_cast; ring

/-- C6 (refuted by `int64_t` overflow): a zero step still yields no trip
count, but for the in-range i64 constants `start = 0`,
`stop = step = 2^63 - 1` the source computes the numerator
`stop - start + step - 1` in `int64_t`, where it wraps to `-3`, so
`tripCount` returns `0` although the true iteration count
`ceil((stop - start)/step)` is `1`; consequently the `SK::For` case of
`optBlock` deletes a loop whose body executes exactly once, changing the
program's printed output from `1` to `0`. -/
theorem c6_trip_count_overflow :
    (∀ a b : Int, tripCount a b 0 = none) ∧
    tripCount 0 (2 ^ 63 - 1) (2 ^ 63 - 1) = some 0 ∧
    ⌈((2 ^ 63 - 1 : Int) : ℚ) / ((2 ^ 63 - 1 : Int) : ℚ)⌉ = 1 ∧
    optForStep false [.letS "acc" (some .i64) false false (.intLit 0)] "i"
        (.intLit 0) (.intLit (2 ^ 63 - 1)) (.intLit (2 ^ 63 - 1)) false progC6Body =
      some [] ∧
    execBlock 100 [] progC6 = some ([("acc", .vInt 1)], [.vInt 1], .norm) ∧
    execBlock 100 [] progC6Del = some ([("acc", .vInt 0)], [.vInt 0], .norm) ∧
    ([Value.vInt 1] ≠ [Value.vInt 0]) := by
  refine ⟨?_, by decide, ?_, by decide, by decide, by decide, by decide⟩
  · intro a b
    simp [tripCount]
  · have hx : ((2 ^ 63 - 1 : Int) : ℚ) ≠ 0 := by norm_num
    rw [div_self hx, Int.ceil_one]


theorem entryScan_scriptE_of_none (fns : List FnMeta) (st : EntrySel)
    (h : ∀ f ∈ fns, f.ex = false → f.isCliFlag = false → f.n ≠ scriptEntryName) :
    (entryScan fns st).scriptE = st.scriptE := by
  induction fns generalizing st with
  | nil => rfl
  | cons f r ih =>
    rw [entryScan]
    by_cases hf : f.ex || f.isCliFlag
    · rw [if_pos hf]
      exact ih st fun g hg => h g (List.mem_cons_of_mem f hg)
    · rw [if_neg hf]
      simp only [Bool.or_eq_true, not_or, Bool.not_eq_true] at hf
      have hname : f.n ≠ scriptEntryName := h f (List.mem_cons_self f r) hf.1 hf.2
      have hname2 : f.n ≠ "__linescript_script_main" := hname
      rw [ih _ fun g hg => h g (List.mem_cons_of_mem f hg)]
      by_cases hm : f.n = "main" <;> by_cases hz : f.nParams = 0 <;>
        simp [hname2, hm, hz, scriptEntryName]

theorem entryScan_scriptE_of_some (fns : List FnMeta) (st : EntrySel)
    (h : ∃ f ∈ fns, f.ex = false ∧ f.isCliFlag = false ∧ f.n = scriptEntryName) :
    ∃ f ∈ fns, f.ex = false ∧ f.isCliFlag = false ∧ f.n = scriptEntryName ∧
      (entryScan fns st).scriptE = some f := by
  induction fns generalizing st with
  | nil => exact absurd h (by simp)
  | cons g r ih =>
    by_cases hr : ∃ f ∈ r, f.ex = false ∧ f.isCliFlag = false ∧ f.n = scriptEntryName
    · rw [entryScan]
      by_cases hg : g.ex || g.isCliFlag
      · rw [if_pos hg]
        obtain ⟨f, hmem, hfx, hfc, hfn, hres⟩ := ih st hr
        exact ⟨f, List.mem_cons_of_mem g hmem, hfx, hfc, hfn, hres⟩
      · rw [if_neg hg]
        obtain ⟨f, hmem, hfx, hfc, hfn, hres⟩ := ih _ hr
        exact ⟨f, List.mem_cons_of_mem g hmem, hfx, hfc, hfn, hres⟩
    · obtain ⟨f, hmem, hfx, hfc, hfn⟩ := h
      have hfg : f = g := by
        rcases List.mem_cons.mp hmem with h1 | h2
        · exact h1
        · exact absurd ⟨f, h2, hfx, hfc, hfn⟩ hr
      subst hfg
      refine ⟨f, List.mem_cons_self f r, hfx, hfc, hfn, ?_⟩
      rw [entryScan]
      rw [if_neg (by simp [hfx, hfc])]
      have hrest : ∀ g2 ∈ r, g2.ex = false → g2.isCliFlag = false → g2.n ≠ scriptEntryName := by
        intro g2 hg2 he hc hn2
        exact hr ⟨g2, hg2, he, hc, hn2⟩
      rw [entryScan_scriptE_of_none r _ hrest]
      have hfn2 : f.n = "__linescript_script_main" := hfn
      by_cases hm : f.n = "main" <;> by_cases hz : f.nParams = 0 <;>
        simp [hfn2, hm, hz, scriptEntryName]

theorem entryScan_mainE_of_none (fns : List FnMeta) (st : EntrySel)
    (h : ∀ f ∈ fns, f.ex = false → f.isCliFlag = false → f.n ≠ "main") :
    (entryScan fns st).mainE = st.mainE := by
  induction fns generalizing st with
  | nil => rfl
  | cons f r ih =>
    rw [entryScan]
    by_cases hf : f.ex || f.isCliFlag
    · rw [if_pos hf]
      exact ih st fun g hg => h g (List.mem_cons_of_mem f hg)
    · rw [if_neg hf]
      simp only [Bool.or_eq_true, not_or, Bool.not_eq_true] at hf
      have hname : f.n ≠ "main" := h f (List.mem_cons_self f r) hf.1 hf.2
      rw [ih _ fun g hg => h g (List.mem_cons_of_mem f hg)]
      by_cases hsn : f.n = "__linescript_script_main" <;> by_cases hz : f.nParams = 0 <;>
        simp [hname, hsn, hz, scriptEntryName]

theorem entryScan_mainE_of_some (fns : List FnMeta) (st : EntrySel)
    (h : ∃ f ∈ fns, f.ex = false ∧ f.isCliFlag = false ∧ f.n = "main") :
    ∃ f ∈ fns, f.ex = false ∧ f.isCliFlag = false ∧ f.n = "main" ∧
      (entryScan fns st).mainE = some f := by
  induction fns generalizing st with
  | nil => exact absurd h (by simp)
  | cons g r ih =>
    by_cases hr : ∃ f ∈ r, f.ex = false ∧ f.isCliFlag = false ∧ f.n = "main"
    · rw [entryScan]
      by_cases hg : g.ex || g.isCliFlag
      · rw [if_pos hg]
        obtain ⟨f, hmem, hfx, hfc, hfn, hres⟩ := ih st hr
        exact ⟨f, List.mem_cons_of_mem g hmem, hfx, hfc, hfn, hres⟩
      · rw [if_neg hg]
        obtain ⟨f, hmem, hfx, hfc, hfn, hres⟩ := ih _ hr
        exact ⟨f, List.mem_cons_of_mem g hmem, hfx, hfc, hfn, hres⟩
    · obtain ⟨f, hmem, hfx, hfc, hfn⟩ := h
      have hfg : f = g := by
        rcases List.mem_cons.mp hmem with h1 | h2
        · exact h1
        · exact absurd ⟨f, h2, hfx, hfc, hfn⟩ hr
      subst hfg
      refine ⟨f, List.mem_cons_self f r, hfx, hfc, hfn, ?_⟩
      rw [entryScan]
      rw [if_neg (by simp [hfx, hfc])]
      have hrest : ∀ g2 ∈ r, g2.ex = false → g2.isCliFlag = false → g2.n ≠ "main" := by
        intro g2 hg2 he hc hn2
        exact hr ⟨g2, hg2, he, hc, hn2⟩
      rw [entryScan_mainE_of_none r _ hrest]
      by_cases hsn : f.n = "__linescript_script_main" <;> by_cases hz : f.nParams = 0 <;>
        simp [hfn, hsn, hz, scriptEntryName]

theorem entryScan_zeroCount (fns : List FnMeta) (st : EntrySel) :
    (entryScan fns st).zeroCount =
      st.zeroCount + fns.countP (fun f => !f.ex && !f.isCliFlag && f.nParams == 0) := by
  induction fns generalizing st with
  | nil => simp [entryScan]
  | cons f r ih =>
    rw [entryScan, List.countP_cons]
    by_cases hf : f.ex || f.isCliFlag
    · rw [if_pos hf]
      rw [ih st]
      have hp : (!f.ex && !f.isCliFlag && f.nParams == 0) = false := by
        rcases Bool.or_eq_true _ _ |>.mp hf with h1 | h1 <;> simp [h1]
      rw [hp]
      simp
    · rw [if_neg hf]
      simp only [Bool.or_eq_true, not_or, Bool.not_eq_true] at hf
      by_cases hz : f.nParams = 0
      · rw [ih _]
        have hp : (!f.ex && !f.isCliFlag && f.nParams == 0) = true := by
          simp [hf.1, hf.2, hz]
        rw [hp]
        by_cases hm : f.n = "main" <;> by_cases hsn : f.n = "__linescript_script_main" <;>
          simp [hz, hm, hsn, scriptEntryName] <;> omega
      · rw [ih _]
        have hp : (!f.ex && !f.isCliFlag && f.nParams == 0) = false := by
          simp [hf.1, hf.2, hz]
        rw [hp]
        by_cases hm : f.n = "main" <;> by_cases hsn : f.n = "__linescript_script_main" <;>
          simp [hz, hm, hsn, scriptEntryName]

theorem entryScan_firstZero_stable (fns : List FnMeta) (st : EntrySel) (g : FnMeta)
    (h : st.firstZero = some g) : (entryScan fns st).firstZero = some g := by
  induction fns generalizing st with
  | nil => exact h
  | cons f r ih =>
    rw [entryScan]
    by_cases hf : f.ex || f.isCliFlag
    · rw [if_pos hf]
      exact ih st h
    · rw [if_neg hf]
      apply ih
      by_cases hz : f.nParams = 0 <;> by_cases hm : f.n = "main" <;>
        by_cases hsn : f.n = "__linescript_script_main" <;> simp [hz, hm, hsn, h, scriptEntryName]

theorem entryScan_firstZero_of_none (fns : List FnMeta) (st : EntrySel)
    (hst : st.firstZero = none)
    (h : ∃ f ∈ fns, f.ex = false ∧ f.isCliFlag = false ∧ f.nParams = 0) :
    ∃ f ∈ fns, f.ex = false ∧ f.isCliFlag = false ∧ f.nParams = 0 ∧
      (entryScan fns st).firstZero = some f := by
  induction fns generalizing st with
  | nil => exact absurd h (by simp)
  | cons g r ih =>
    rw [entryScan]
    by_cases hg : g.ex || g.isCliFlag
    · rw [if_pos hg]
      have hr : ∃ f ∈ r, f.ex = false ∧ f.isCliFlag = false ∧ f.nParams = 0 := by
        obtain ⟨f, hmem, hfx, hfc, hfz⟩ := h
        rcases List.mem_cons.mp hmem with h1 | h2
        · subst h1
          rw [hfx, hfc] at hg
          exact absurd hg (by simp)
        · exact ⟨f, h2, hfx, hfc, hfz⟩
      obtain ⟨f, hmem, hfx, hfc, hfz, hres⟩ := ih st hst hr
      exact ⟨f, List.mem_cons_of_mem g hmem, hfx, hfc, hfz, hres⟩
    · rw [if_neg hg]
      simp only [Bool.or_eq_true, not_or, Bool.not_eq_true] at hg
      by_cases hz : g.nParams = 0
      · refine ⟨g, List.mem_cons_self g r, hg.1, hg.2, hz, ?_⟩
        apply entryScan_firstZero_stable
        by_cases hm : g.n = "main" <;> by_cases hsn : g.n = "__linescript_script_main" <;>
          simp [hz, hm, hsn, hst, scriptEntryName]
      · have hr : ∃ f ∈ r, f.ex = false ∧ f.isCliFlag = false ∧ f.nParams = 0 := by
          obtain ⟨f, hmem, hfx, hfc, hfz⟩ := h
          rcases List.mem_cons.mp hmem with h1 | h2
          · subst h1
            exact absurd hfz hz
          · exact ⟨f, h2, hfx, hfc, hfz⟩
        simp only [scriptEntryName, if_neg hz]
        by_cases hm : g.n = "main" <;> by_cases hsn : g.n = "__linescript_script_main"
        · exact absurd (hm.symm.trans hsn) (by decide)
        · rw [if_pos hm, if_neg hsn]
          have hst1 : ({ st with mainE := some g } : EntrySel).firstZero = none := hst
          obtain ⟨f, hmem, hfx, hfc, hfz, hres⟩ := ih _ hst1 hr
          exact ⟨f, List.mem_cons_of_mem g hmem, hfx, hfc, hfz, hres⟩
        · rw [if_neg hm, if_pos hsn]
          have hst1 : ({ st with scriptE := some g } : EntrySel).firstZero = none := hst
          obtain ⟨f, hmem, hfx, hfc, hfz, hres⟩ := ih _ hst1 hr
          exact ⟨f, List.mem_cons_of_mem g hmem, hfx, hfc, hfz, hres⟩
        · rw [if_neg hm, if_neg hsn]
          obtain ⟨f, hmem, hfx, hfc, hfz, hres⟩ := ih st hst hr
          exact ⟨f, List.mem_cons_of_mem g hmem, hfx, hfc, hfz, hres⟩

/-- C7: the C emitter's entry selection follows exactly the order
script-entry (`__linescript_script_main`) > `main` > sole non-extern
non-cli-flag zero-argument function; with no candidate the build fails with
`noEntryMsg`, with several zero-argument candidates and no main/script entry
it fails with `ambiguousEntryMsg`, and the two messages differ; the generated
wrapper returns 0 exactly for `void`/`str` entries and otherwise returns the
entry's value cast to int. -/
theorem c7_entry_selection (fns : List FnMeta) (t : Ty) :
    ((∃ f ∈ fns, f.ex = false ∧ f.isCliFlag = false ∧ f.n = scriptEntryName) →
      ∃ f ∈ fns, f.ex = false ∧ f.isCliFlag = false ∧ f.n = scriptEntryName ∧
        selectEntry fns = .ok f) ∧
    ((∀ f ∈ fns, f.ex = false → f.isCliFlag = false → f.n ≠ scriptEntryName) →
      (∃ f ∈ fns, f.ex = false ∧ f.isCliFlag = false ∧ f.n = "main") →
      ∃ f ∈ fns, f.ex = false ∧ f.isCliFlag = false ∧ f.n = "main" ∧
        selectEntry fns = .ok f) ∧
    ((∀ f ∈ fns, f.ex = false → f.isCliFlag = false →
        f.n ≠ scriptEntryName ∧ f.n ≠ "main") →
      fns.countP (fun f => !f.ex && !f.isCliFlag && f.nParams == 0) = 1 →
      ∃ f ∈ fns, f.ex = false ∧ f.isCliFlag = false ∧ f.nParams = 0 ∧
        selectEntry fns = .ok f) ∧
    ((∀ f ∈ fns, f.ex = false → f.isCliFlag = false →
        f.n ≠ scriptEntryName ∧ f.n ≠ "main") →
      (fns.countP (fun f => !f.ex && !f.isCliFlag && f.nParams == 0) = 0 →
        selectEntry fns = .error noEntryMsg) ∧
      (2 ≤ fns.countP (fun f => !f.ex && !f.isCliFlag && f.nParams == 0) →
        selectEntry fns = .error ambiguousEntryMsg)) ∧
    noEntryMsg ≠ ambiguousEntryMsg ∧
    mainWrapperRet t = (if t = .void ∨ t = .str then .returnsZero else .returnsCast) := by
  refine ⟨?_, ?_, ?_, ?_, by decide, by cases t <;> simp [mainWrapperRet]⟩
  · intro h
    obtain ⟨f, hmem, hfx, hfc, hfn, hres⟩ :=
      entryScan_scriptE_of_some fns ⟨none, none, none, 0⟩ h
    exact ⟨f, hmem, hfx, hfc, hfn, by simp [selectEntry, hres]⟩
  · intro hns h
    have hs : (entryScan fns ⟨none, none, none, 0⟩).scriptE = none :=
      entryScan_scriptE_of_none fns _ hns
    obtain ⟨f, hmem, hfx, hfc, hfn, hres⟩ :=
      entryScan_mainE_of_some fns ⟨none, none, none, 0⟩ h
    exact ⟨f, hmem, hfx, hfc, hfn, by simp [selectEntry, hs, hres]⟩
  · intro hno hcount
    have hs : (entryScan fns ⟨none, none, none, 0⟩).scriptE = none :=
      entryScan_scriptE_of_none fns _ fun f hf he hc => (hno f hf he hc).1
    have hmn : (entryScan fns ⟨none, none, none, 0⟩).mainE = none :=
      entryScan_mainE_of_none fns _ fun f hf he hc => (hno f hf he hc).2
    have hzc : (entryScan fns ⟨none, none, none, 0⟩).zeroCount = 1 := by
      rw [entryScan_zeroCount, hcount]
    have hpos : 0 < fns.countP (fun f => !f.ex && !f.isCliFlag && f.nParams == 0) := by
      omega
    obtain ⟨a, hamem, hap⟩ := List.countP_pos_iff.mp hpos
    simp only [Bool.and_eq_true, Bool.not_eq_true', beq_iff_eq] at hap
    obtain ⟨f, hmem, hfx, hfc, hfz, hres⟩ :=
      entryScan_firstZero_of_none fns ⟨none, none, none, 0⟩ rfl
        ⟨a, hamem, hap.1.1, hap.1.2, hap.2⟩
    exact ⟨f, hmem, hfx, hfc, hfz, by simp [selectEntry, hs, hmn, hzc, hres]⟩
  · intro hno
    have hs : (entryScan fns ⟨none, none, none, 0⟩).scriptE = none :=
      entryScan_scriptE_of_none fns _ fun f hf he hc => (hno f hf he hc).1
    have hmn : (entryScan fns ⟨none, none, none, 0⟩).mainE = none :=
      entryScan_mainE_of_none fns _ fun f hf he hc => (hno f hf he hc).2
    constructor
    · intro hcount
      have hzc : (entryScan fns ⟨none, none, none, 0⟩).zeroCount = 0 := by
        rw [entryScan_zeroCount, hcount]
      simp [selectEntry, hs, hmn, hzc]
    · intro hcount
      have h1 : (entryScan fns ⟨none, none, none, 0⟩).zeroCount ≠ 1 := by
        rw [entryScan_zeroCount]; omega
      have h0 : (entryScan fns ⟨none, none, none, 0⟩).zeroCount ≠ 0 := by
        rw [entryScan_zeroCount]; omega
      simp [selectEntry, hs, hmn, h1, h0]

/-- Concrete instances of the entry-selection theorem: the script entry wins
over `main`, and two plain zero-argument functions are ambiguous. -/
theorem c7_entry_selection_witness :
    (∃ f ∈ ([⟨"main", false, false, 0, .i64⟩,
             ⟨"__linescript_script_main", false, false, 0, .void⟩] : List FnMeta),
       f.ex = false ∧ f.isCliFlag = false ∧ f.n = scriptEntryName ∧
       selectEntry [⟨"main", false, false, 0, .i64⟩,
                    ⟨"__linescript_script_main", false, false, 0, .void⟩] = .ok f) ∧
    selectEntry ([⟨"f", false, false, 0, .i64⟩,
                  ⟨"g", false, false, 0, .i64⟩] : List FnMeta) =
      .error ambiguousEntryMsg ∧
    mainWrapperRet .str = .returnsZero ∧ mainWrapperRet .i64 = .returnsCast := by
  refine ⟨?_, ?_, by decide, by decide⟩
  · exact (c7_entry_selection
      [⟨"main", false, false, 0, .i64⟩,
       ⟨"__linescript_script_main", false, false, 0, .void⟩] .i64).1
      ⟨⟨"__linescript_script_main", false, false, 0, .void⟩, by decide, rfl, rfl, by decide⟩
  · exact ((c7_entry_selection
      [⟨"f", false, false, 0, .i64⟩, ⟨"g", false, false, 0, .i64⟩] .i64).2.2.2.1
      (by decide)).2 (by decide)

theorem specArgCost_eq (a p : Ty) :
    specArgCost a p =
      (if conversionCost a p < 0 then none else some (conversionCost a p)) := by
  cases a <;> cases p <;> decide

theorem candidateCost_go_spec (as_ : List Ty) :
    ∀ (ps : List Ty), as_.length = ps.length → ∀ acc : Int,
      candidateCost.go as_ ps acc =
        (sumCosts (List.zipWith specArgCost as_ ps)).map fun s => acc + s := by
  induction as_ with
  | nil =>
    intro ps h acc
    cases ps with
    | nil => simp [candidateCost.go, sumCosts]
    | cons p ps2 => simp at h
  | cons a as2 ih =>
    intro ps h acc
    cases ps with
    | nil => simp at h
    | cons p ps2 =>
      have h2 : as2.length = ps2.length := by simpa using h
      rw [List.zipWith_cons_cons, specArgCost_eq]
      by_cases hc : conversionCost a p < 0
      · simp [candidateCost.go, hc, sumCosts]
      · rw [if_neg hc]
        simp only [candidateCost.go, if_neg hc]
        rw [ih ps2 h2 (acc + conversionCost a p)]
        cases hs : sumCosts (List.zipWith specArgCost as2 ps2) with
        | none => simp [sumCosts, hs]
        | some s => simp [sumCosts, hs, add_assoc]


theorem candidateCost_eq_spec (argTypes : List Ty) (cand : OverloadCandidate) :
    candidateCost argTypes cand = specCandCost argTypes cand := by
  unfold candidateCost specCandCost
  by_cases h : cand.sig.p.length = argTypes.length
  · rw [if_neg (not_not_intro h), if_pos h,
      candidateCost_go_spec argTypes cand.sig.p h.symm 0]
    cases sumCosts (List.zipWith specArgCost argTypes cand.sig.p) <;> simp
  · rw [if_pos h, if_neg h]

theorem conversionCost_le_one (a b : Ty) : conversionCost a b ≤ 1 := by
  cases a <;> cases b <;> decide

theorem candidateCost_go_bounds (as_ : List Ty) :
    ∀ (ps : List Ty) (acc k : Int), candidateCost.go as_ ps acc = some k →
      acc ≤ k ∧ k ≤ acc + as_.length := by
  induction as_ with
  | nil =>
    intro ps acc k h
    cases ps with
    | nil =>
      simp [candidateCost.go] at h
      simp [h]
    | cons p ps2 => simp [candidateCost.go] at h
  | cons a as2 ih =>
    intro ps acc k h
    cases ps with
    | nil => simp [candidateCost.go] at h
    | cons p ps2 =>
      simp only [candidateCost.go] at h
      by_cases hc : conversionCost a p < 0
      · rw [if_pos hc] at h
        exact absurd h (by simp)
      · rw [if_neg hc] at h
        obtain ⟨h1, h2⟩ := ih ps2 (acc + conversionCost a p) k h
        have h3 := conversionCost_le_one a p
        have h4 : ¬ conversionCost a p < 0 := hc
        simp only [List.length_cons]
        push_cast
        constructor <;> omega

theorem admissiblePair_bounds (args : List Ty) (cands : List OverloadCandidate)
    (c : OverloadCandidate) (k : Int) (h : (c, k) ∈ admissiblePairs args cands) :
    0 ≤ k ∧ k ≤ args.length := by
  simp only [admissiblePairs, List.mem_filterMap] at h
  obtain ⟨cand, hmem, hc⟩ := h
  rw [Option.map_eq_some'] at hc
  obtain ⟨k2, hcc, hpair⟩ := hc
  obtain ⟨-, rfl⟩ := Prod.mk.injEq .. ▸ hpair
  unfold candidateCost at hcc
  by_cases hl : cand.sig.p.length ≠ args.length
  · rw [if_pos hl] at hcc
    exact absurd hcc (by simp)
  · rw [if_neg hl] at hcc
    exact candidateCost_go_bounds args cand.sig.p 0 k2 hcc |>.imp (fun h => by omega)
      (fun h => by omega)

theorem exists_min_pair {A : Type} (P : List (A × Int)) (h : P ≠ []) :
    ∃ ck ∈ P, (∀ p ∈ P, ck.2 ≤ p.2) ∧
      P.find? (fun p => p.2 == ck.2) = some ck := by
  induction P with
  | nil => exact absurd rfl h
  | cons a P2 ih =>
    by_cases hP2 : P2 = []
    · subst hP2
      refine ⟨a, List.mem_cons_self a [], ?_, ?_⟩
      · intro p hp
        simp at hp
        simp [hp]
      · rw [List.find?_cons_of_pos _ (by simp)]
    · obtain ⟨ck, hmem, hmin, hfind⟩ := ih hP2
      by_cases hle : a.2 ≤ ck.2
      · refine ⟨a, List.mem_cons_self a P2, ?_, ?_⟩
        · intro p hp
          rcases List.mem_cons.mp hp with h1 | h2
          · simp [h1]
          · exact le_trans hle (hmin p h2)
        · rw [List.find?_cons_of_pos _ (by simp)]
      · push_neg at hle
        refine ⟨ck, List.mem_cons_of_mem a hmem, ?_, ?_⟩
        · intro p hp
          rcases List.mem_cons.mp hp with h1 | h2
          · rw [h1]; exact le_of_lt hle
          · exact hmin p h2
        · rw [List.find?_cons_of_neg _ (by simp; omega), hfind]

theorem admissiblePairs_cons_none (args : List Ty) (cand : OverloadCandidate)
    (rest : List OverloadCandidate) (hcc : candidateCost args cand = none) :
    admissiblePairs args (cand :: rest) = admissiblePairs args rest := by
  simp [admissiblePairs, List.filterMap_cons, hcc]

theorem admissiblePairs_cons_some (args : List Ty) (cand : OverloadCandidate)
    (rest : List OverloadCandidate) (k0 : Int)
    (hcc : candidateCost args cand = some k0) :
    admissiblePairs args (cand :: rest) = (cand, k0) :: admissiblePairs args rest := by
  simp [admissiblePairs, List.filterMap_cons, hcc]

theorem resolveScan_char (args : List Ty) (cands : List OverloadCandidate) :
    ∀ st : ResolveState,
      ((∀ p ∈ admissiblePairs args cands, st.bestCost ≤ p.2) →
        (resolveScan args cands st).bestCost = st.bestCost ∧
        (resolveScan args cands st).best = st.best ∧
        ((resolveScan args cands st).ambiguous = true ↔
          (st.ambiguous = true ∨ ∃ p ∈ admissiblePairs args cands, p.2 = st.bestCost))) ∧
      (∀ c k, (c, k) ∈ admissiblePairs args cands → k < st.bestCost →
        (∀ p ∈ admissiblePairs args cands, k ≤ p.2) →
        (admissiblePairs args cands).find? (fun p => p.2 == k) = some (c, k) →
        (resolveScan args cands st).bestCost = k ∧
        (resolveScan args cands st).best = some c ∧
        ((resolveScan args cands st).ambiguous = true ↔
          2 ≤ (admissiblePairs args cands).countP (fun p => p.2 == k))) := by
  induction cands with
  | nil =>
    intro st
    refine ⟨fun _ => ⟨rfl, rfl, ?_⟩, fun c k hmem _ _ _ => ?_⟩
    · simp [resolveScan, admissiblePairs]
    · simp [admissiblePairs] at hmem
  | cons cand rest ih =>
    intro st
    cases hcc : candidateCost args cand with
    | none =>
      rw [admissiblePairs_cons_none args cand rest hcc]
      have hstep : resolveScan args (cand :: rest) st = resolveScan args rest st := by
        simp [resolveScan, hcc]
      rw [hstep]
      exact ih st
    | some k0 =>
      rw [admissiblePairs_cons_some args cand rest k0 hcc]
      rcases lt_trichotomy k0 st.bestCost with hlt | heq | hgt
      · have hstep : resolveScan args (cand :: rest) st =
            resolveScan args rest ⟨k0, some cand, false⟩ := by
          simp [resolveScan, hcc, hlt]
        rw [hstep]
        constructor
        · intro hall
          exact absurd (hall (cand, k0) (List.mem_cons_self _ _)) (not_le.mpr hlt)
        · intro c k hmem hklt hkmin hfind
          by_cases hk : k0 = k
          · subst hk
            rw [List.find?_cons_of_pos _ (by simp)] at hfind
            have hpair := Option.some.inj hfind
            rw [Prod.mk.injEq] at hpair
            obtain ⟨rfl, -⟩ := hpair
            have hall2 : ∀ p ∈ admissiblePairs args rest,
                (⟨k0, some cand, false⟩ : ResolveState).bestCost ≤ p.2 :=
              fun p hp => hkmin p (List.mem_cons_of_mem _ hp)
            obtain ⟨hbc, hbest, hamb⟩ := (ih ⟨k0, some cand, false⟩).1 hall2
            refine ⟨hbc, hbest, ?_⟩
            rw [hamb, List.countP_cons]
            simp only [show ((cand, k0).2 == k0) = true from by simp, if_true]
            constructor
            · rintro (h | ⟨p, hp, hpk⟩)
              · simp at h
              · have : 0 < (admissiblePairs args rest).countP (fun p => p.2 == k0) :=
                  List.countP_pos_iff.mpr ⟨p, hp, by simp [hpk]⟩
                omega
            · intro h2
              have : 0 < (admissiblePairs args rest).countP (fun p => p.2 == k0) := by
                omega
              obtain ⟨p, hp, hpk⟩ := List.countP_pos_iff.mp this
              exact Or.inr ⟨p, hp, by simpa using hpk⟩
          · have hkk : k < k0 :=
              lt_of_le_of_ne (hkmin (cand, k0) (List.mem_cons_self _ _)) (Ne.symm hk)
            rw [List.find?_cons_of_neg _ (by simp; omega)] at hfind
            have hmem2 : (c, k) ∈ admissiblePairs args rest := by
              rcases List.mem_cons.mp hmem with h1 | h2
              · have : k = k0 := congrArg Prod.snd h1
                omega
              · exact h2
            obtain ⟨hbc, hbest, hamb⟩ := (ih ⟨k0, some cand, false⟩).2 c k hmem2 hkk
              (fun p hp => hkmin p (List.mem_cons_of_mem _ hp)) hfind
            refine ⟨hbc, hbest, ?_⟩
            rw [hamb, List.countP_cons]
            simp only [show ((cand, k0).2 == k) = false from by simp; omega]
            simp
      · have hstep : resolveScan args (cand :: rest) st =
            resolveScan args rest { st with ambiguous := true } := by
          simp [resolveScan, hcc, heq]
        rw [hstep]
        constructor
        · intro hall
          have hall2 : ∀ p ∈ admissiblePairs args rest,
              ({ st with ambiguous := true } : ResolveState).bestCost ≤ p.2 :=
            fun p hp => hall p (List.mem_cons_of_mem _ hp)
          obtain ⟨hbc, hbest, hamb⟩ := (ih _).1 hall2
          refine ⟨hbc, hbest, ?_⟩
          have hL : (resolveScan args rest { st with ambiguous := true }).ambiguous = true :=
            hamb.mpr (Or.inl rfl)
          exact iff_of_true hL (Or.inr ⟨(cand, k0), List.mem_cons_self _ _, heq⟩)
        · intro c k hmem hklt hkmin hfind
          have hkk : k < k0 := by omega
          rw [List.find?_cons_of_neg _ (by simp; omega)] at hfind
          have hmem2 : (c, k) ∈ admissiblePairs args rest := by
            rcases List.mem_cons.mp hmem with h1 | h2
            · have : k = k0 := congrArg Prod.snd h1
              omega
            · exact h2
          obtain ⟨hbc, hbest, hamb⟩ := (ih { st with ambiguous := true }).2 c k hmem2
            (by simpa using hklt)
            (fun p hp => hkmin p (List.mem_cons_of_mem _ hp)) hfind
          refine ⟨hbc, hbest, ?_⟩
          rw [hamb, List.countP_cons]
          simp only [show ((cand, k0).2 == k) = false from by simp; omega]
          simp
      · have hstep : resolveScan args (cand :: rest) st = resolveScan args rest st := by
          simp [resolveScan, hcc, not_lt.mpr (le_of_lt hgt), ne_of_gt hgt]
        rw [hstep]
        constructor
        · intro hall
          obtain ⟨hbc, hbest, hamb⟩ :=
            (ih st).1 (fun p hp => hall p (List.mem_cons_of_mem _ hp))
          refine ⟨hbc, hbest, ?_⟩
          rw [hamb]
          constructor
          · rintro (h | ⟨p, hp, hpk⟩)
            · exact Or.inl h
            · exact Or.inr ⟨p, List.mem_cons_of_mem _ hp, hpk⟩
          · rintro (h | ⟨p, hp, hpk⟩)
            · exact Or.inl h
            · rcases List.mem_cons.mp hp with h1 | h2
              · have : p.2 = k0 := congrArg Prod.snd h1
                omega
              · exact Or.inr ⟨p, h2, hpk⟩
        · intro c k hmem hklt hkmin hfind
          have hkk : k < k0 := by omega
          rw [List.find?_cons_of_neg _ (by simp; omega)] at hfind
          have hmem2 : (c, k) ∈ admissiblePairs args rest := by
            rcases List.mem_cons.mp hmem with h1 | h2
            · have : k = k0 := congrArg Prod.snd h1
              omega
            · exact h2
          obtain ⟨hbc, hbest, hamb⟩ := (ih st).2 c k hmem2 hklt
            (fun p hp => hkmin p (List.mem_cons_of_mem _ hp)) hfind
          refine ⟨hbc, hbest, ?_⟩
          rw [hamb, List.countP_cons]
          simp only [show ((cand, k0).2 == k) = false from by simp; omega]
          simp

/-- C5: overload resolution — the conversion-cost table is 0 for an exact
match, 1 for exactly the five safe widenings and rejection otherwise; a
candidate's total cost exists exactly when the arity matches and every
argument converts, and then equals the sum of per-argument costs; with at
most `2^31 - 2` arguments, the scan reports no candidate exactly when no
candidate is admissible, a unique minimum-cost candidate is resolved, a tie
at the minimum is an ambiguous-overload error unless superuser mode keeps
the first minimum-cost candidate with a warning; and a resolved call's
target is rewritten to the chosen candidate's mangled symbol. -/
theorem c5_overload_resolution :
    (∀ a b : Ty,
      (conversionCost a b = 0 ↔ a = b) ∧
      (conversionCost a b = 1 ↔ isSpecWidening a b) ∧
      (conversionCost a b = -1 ↔ ¬(a = b ∨ isSpecWidening a b))) ∧
    (∀ (args : List Ty) (cand : OverloadCandidate),
      candidateCost args cand = specCandCost args cand) ∧
    (∀ (su : Bool) (name : String) (cands : List OverloadCandidate) (args : List Ty),
      args.length ≤ 2 ^ 31 - 2 →
      (resolveOverload su name cands args = .noCandidate ↔
        admissiblePairs args cands = []) ∧
      (∀ c k, (c, k) ∈ admissiblePairs args cands →
        (∀ p ∈ admissiblePairs args cands, k ≤ p.2) →
        (admissiblePairs args cands).find? (fun p => p.2 == k) = some (c, k) →
        ((admissiblePairs args cands).countP (fun p => p.2 == k) = 1 →
          resolveOverload su name cands args = .resolved c) ∧
        (2 ≤ (admissiblePairs args cands).countP (fun p => p.2 == k) →
          resolveOverload su name cands args =
            (if su then .resolvedWithWarning c
             else .errAmbiguous ("ambiguous overload for function '" ++ name ++ "'"))))) ∧
    (∀ (ctx : TC) (f : String) (args : List Ty) (c : OverloadCandidate),
      resolveOverload ctx.su (canonicalSuperuserCallName f)
          (lookupAssoc ctx.groups (canonicalSuperuserCallName f)).toList.flatten args =
        .resolved c →
      rewrittenCallTarget ctx f args = .ok c.symbol) ∧
    (∀ (ctx : TC) (f : String) (args : List Ty) (c : OverloadCandidate),
      resolveOverload ctx.su (canonicalSuperuserCallName f)
          (lookupAssoc ctx.groups (canonicalSuperuserCallName f)).toList.flatten args =
        .resolvedWithWarning c →
      rewrittenCallTarget ctx f args = .ok c.symbol) := by
  refine ⟨?_, candidateCost_eq_spec, ?_, ?_, ?_⟩
  · intro a b
    cases a <;> cases b <;> exact ⟨by decide, by decide, by decide⟩
  · intro su name cands args hlen
    have hcast : (args.length : Int) ≤ 2 ^ 31 - 2 := by
      have h2 : ((2 ^ 31 - 2 : Nat) : Int) = 2 ^ 31 - 2 := by norm_num
      omega
    constructor
    · constructor
      · intro hout
        by_contra hne
        obtain ⟨ck, hmem, hmin, hfind⟩ := exists_min_pair _ hne
        obtain ⟨c, k⟩ := ck
        obtain ⟨hk0, hkb⟩ := admissiblePair_bounds args cands c k hmem
        have hklt : k < (⟨2 ^ 31 - 1, none, false⟩ : ResolveState).bestCost := by
          show k < 2 ^ 31 - 1
          omega
        obtain ⟨hbc, hbest, hamb⟩ :=
          (resolveScan_char args cands ⟨2 ^ 31 - 1, none, false⟩).2 c k hmem hklt hmin hfind
        rw [resolveOverload] at hout
        simp only [hbest] at hout
        cases hA : (resolveScan args cands ⟨2 ^ 31 - 1, none, false⟩).ambiguous <;>
          rw [hA] at hout <;> [skip; cases su] <;> simp at hout
      · intro hP
        obtain ⟨hbc, hbest, hamb⟩ :=
          (resolveScan_char args cands ⟨2 ^ 31 - 1, none, false⟩).1
            (by rw [hP]; intro p hp; simp at hp)
        rw [resolveOverload]
        simp only [hbest]
    · intro c k hmem hmin hfind
      obtain ⟨hk0, hkb⟩ := admissiblePair_bounds args cands c k hmem
      have hklt : k < (⟨2 ^ 31 - 1, none, false⟩ : ResolveState).bestCost := by
        show k < 2 ^ 31 - 1
        omega
      obtain ⟨hbc, hbest, hamb⟩ :=
        (resolveScan_char args cands ⟨2 ^ 31 - 1, none, false⟩).2 c k hmem hklt hmin hfind
      constructor
      · intro hcnt
        have hna : ¬ ((resolveScan args cands ⟨2 ^ 31 - 1, none, false⟩).ambiguous = true) := by
          rw [hamb]; omega
        have hfa : (resolveScan args cands ⟨2 ^ 31 - 1, none, false⟩).ambiguous = false :=
          Bool.eq_false_iff.mpr hna
        rw [resolveOverload]
        simp only [hbest, hfa]
        rfl
      · intro hcnt
        have hta : (resolveScan args cands ⟨2 ^ 31 - 1, none, false⟩).ambiguous = true :=
          hamb.mpr hcnt
        rw [resolveOverload]
        simp only [hbest, hta]
        cases su <;> rfl
  · intro ctx f args c h
    rw [rewrittenCallTarget]
    simp only [h]
  · intro ctx f args c h
    rw [rewrittenCallTarget]
    simp only [h]

/-- Concrete instances of the overload-resolution theorem: with candidates
`f(i64) → f_i64` and `f(f64) → f_f64`, an `i64` argument resolves uniquely
to `f_i64`, while an `i32` argument widens to both at cost 1 — an ambiguity
error normally, and the first candidate with a warning in superuser mode. -/
theorem c5_overload_resolution_witness :
    resolveOverload false "f"
        [⟨"f_i64", ⟨[.i64], .i64, []⟩⟩, ⟨"f_f64", ⟨[.f64], .f64, []⟩⟩] [.i64] =
      .resolved ⟨"f_i64", ⟨[.i64], .i64, []⟩⟩ ∧
    resolveOverload false "f"
        [⟨"f_i64", ⟨[.i64], .i64, []⟩⟩, ⟨"f_f64", ⟨[.f64], .f64, []⟩⟩] [.i32] =
      .errAmbiguous "ambiguous overload for function 'f'" ∧
    resolveOverload true "f"
        [⟨"f_i64", ⟨[.i64], .i64, []⟩⟩, ⟨"f_f64", ⟨[.f64], .f64, []⟩⟩] [.i32] =
      .resolvedWithWarning ⟨"f_i64", ⟨[.i64], .i64, []⟩⟩ := by
  refine ⟨?_, ?_, ?_⟩
  · exact ((c5_overload_resolution.2.2.1 false "f"
      [⟨"f_i64", ⟨[.i64], .i64, []⟩⟩, ⟨"f_f64", ⟨[.f64], .f64, []⟩⟩] [.i64]
      (by decide)).2 ⟨"f_i64", ⟨[.i64], .i64, []⟩⟩ 0
      (by decide) (by decide) (by decide)).1 (by decide)
  · have h := ((c5_overload_resolution.2.2.1 false "f"
      [⟨"f_i64", ⟨[.i64], .i64, []⟩⟩, ⟨"f_f64", ⟨[.f64], .f64, []⟩⟩] [.i32]
      (by decide)).2 ⟨"f_i64", ⟨[.i64], .i64, []⟩⟩ 1
      (by decide) (by decide) (by decide)).2 (by decide)
    simpa using h
  · have h := ((c5_overload_resolution.2.2.1 true "f"
      [⟨"f_i64", ⟨[.i64], .i64, []⟩⟩, ⟨"f_f64", ⟨[.f64], .f64, []⟩⟩] [.i32]
      (by decide)).2 ⟨"f_i64", ⟨[.i64], .i64, []⟩⟩ 1
      (by decide) (by decide) (by decide)).2 (by decide)
    simpa using h

theorem tc_bind_ok {A B : Type} (x : Except String A) (f : A → Except String B) (b : B)
    (h : x >>= f = .ok b) : ∃ a, x = .ok a ∧ f a = .ok b := by
  cases x with
  | error e => simp [Bind.bind, Except.bind] at h
  | ok a => exact ⟨a, rfl, by simpa [Bind.bind, Except.bind] using h⟩

/-- C10: LineScript has no variable shadowing — outside superuser mode a
`declare` whose name is already bound (parameter or any enclosing local of
the same function, across if/while/for block boundaries) fails with
`variable '<name>' already declared` no matter what the initializer is,
while every non-`declare` statement that checks successfully leaves the
local table unchanged, so names declared inside a nested block never escape
it; concrete programs demonstrate the if-block, for-loop-variable and
parameter collisions and the non-escape of an if-local. -/
theorem c10_no_shadowing :
    (∀ (ctx : TC) (l : Locals) (ret : Ty) (d : Nat) (ta : List String)
        (n : String) (decl : Option Ty) (c o : Bool) (v : Expr),
      ctx.su = false → (lookupAssoc l n).isSome = true →
      tcStmt ctx l ret d ta (.letS n decl c o v) =
        .error ("variable '" ++ n ++ "' already declared")) ∧
    (∀ (ctx : TC) (l : Locals) (ret : Ty) (d : Nat) (ta : List String)
        (s : Stmt) (l2 : Locals),
      (∀ (n : String) (decl : Option Ty) (c o : Bool) (v : Expr),
        s ≠ .letS n decl c o v) →
      tcStmt ctx l ret d ta s = .ok l2 → l2 = l) ∧
    tcBlock ⟨false, [], []⟩ [] .void 0 []
        (.cons (.letS "x" none false false (.intLit 0))
          (.cons (.ifS (.boolLit true)
              (.cons (.letS "x" none false false (.intLit 1)) .nil) .nil) .nil)) =
      .error "variable 'x' already declared" ∧
    tcBlock ⟨false, [], []⟩ [] .void 0 []
        (.cons (.ifS (.boolLit true)
            (.cons (.letS "x" none false false (.intLit 0)) .nil) .nil)
          (.cons (.letS "x" none false false (.intLit 1)) .nil)) =
      .ok [("x", ⟨.i64, false, false, ""⟩)] ∧
    tcBlock ⟨false, [], []⟩ [] .void 0 []
        (.cons (.forS "i" (.intLit 0) (.intLit 3) (.intLit 1) false
            (.cons (.letS "i" none false false (.intLit 0)) .nil)) .nil) =
      .error "variable 'i' already declared" ∧
    tcFn ⟨false, [], []⟩ [("p", .i64)] .void []
        (.cons (.letS "p" none false false (.intLit 0)) .nil) =
      .error "variable 'p' already declared" := by
  refine ⟨?_, ?_, rfl, rfl, rfl, rfl⟩
  · intro ctx l ret d ta n decl c o v hsu hsome
    cases hlk : lookupAssoc l n with
    | none => rw [hlk] at hsome; simp at hsome
    | some lo =>
      simp [tcStmt, tcReq, hsu, hlk, Bind.bind, Except.bind]
  · intro ctx l ret d ta s l2 hne hok
    cases s with
    | letS n decl c o v => exact absurd rfl (hne n decl c o v)
    | assign n v =>
      simp only [tcStmt] at hok
      repeat obtain ⟨_, -, hok⟩ := tc_bind_ok _ _ _ hok
      exact (Except.ok.inj hok).symm
    | exprS e =>
      simp only [tcStmt] at hok
      repeat obtain ⟨_, -, hok⟩ := tc_bind_ok _ _ _ hok
      exact (Except.ok.inj hok).symm
    | retS has v =>
      cases has with
      | false =>
        simp only [tcStmt] at hok
        repeat obtain ⟨_, -, hok⟩ := tc_bind_ok _ _ _ hok
        exact (Except.ok.inj hok).symm
      | true =>
        cases v with
        | none => simp [tcStmt] at hok
        | some ve =>
          simp only [tcStmt] at hok
          repeat obtain ⟨_, -, hok⟩ := tc_bind_ok _ _ _ hok
          exact (Except.ok.inj hok).symm
    | ifS cnd t e =>
      simp only [tcStmt] at hok
      repeat obtain ⟨_, -, hok⟩ := tc_bind_ok _ _ _ hok
      exact (Except.ok.inj hok).symm
    | whileS cnd b =>
      simp only [tcStmt] at hok
      repeat obtain ⟨_, -, hok⟩ := tc_bind_ok _ _ _ hok
      exact (Except.ok.inj hok).symm
    | forS n start stop step par b =>
      simp only [tcStmt] at hok
      repeat obtain ⟨_, -, hok⟩ := tc_bind_ok _ _ _ hok
      exact (Except.ok.inj hok).symm
    | formatBlock ea b =>
      simp only [tcStmt] at hok
      repeat obtain ⟨_, -, hok⟩ := tc_bind_ok _ _ _ hok
      exact (Except.ok.inj hok).symm
    | breakS =>
      simp only [tcStmt] at hok
      repeat obtain ⟨_, -, hok⟩ := tc_bind_ok _ _ _ hok
      exact (Except.ok.inj hok).symm
    | continueS =>
      simp only [tcStmt] at hok
      repeat obtain ⟨_, -, hok⟩ := tc_bind_ok _ _ _ hok
      exact (Except.ok.inj hok).symm

/-- Concrete instances of the no-shadowing theorem: redeclaring `y` over an
existing local errors even with an initializer of a different type, and a
successful `if` statement leaves the enclosing local table unchanged. -/
theorem c10_no_shadowing_witness :
    tcStmt (⟨false, [], []⟩ : TC) [("y", Local.mk .i64 false false "")] .void 0 []
        (.letS "y" none false false (.strLit "s")) =
      .error "variable 'y' already declared" ∧
    ([("y", Local.mk .i64 false false "")] : Locals) =
      [("y", Local.mk .i64 false false "")] := by
  constructor
  · exact c10_no_shadowing.1 ⟨false, [], []⟩ [("y", Local.mk .i64 false false "")]
      .void 0 [] "y" none false false (.strLit "s") rfl rfl
  · exact c10_no_shadowing.2.1 ⟨false, [], []⟩ [("y", Local.mk .i64 false false "")]
      .void 0 []
      (.ifS (.boolLit true) (.cons (.letS "q" none false false (.intLit 0)) .nil) .nil)
      [("y", Local.mk .i64 false false "")] (fun n decl c o v => by simp) rfl

end LS
